import Mathlib

/-!
# Particle engine of `script.js`

A shallow embedding of the `ParticleSystem` class (script.js lines 2-74) together with the
small part of the browser it talks to: the elements it creates, the children of the
particle container, the `requestAnimationFrame` queue and the viewport size.

JavaScript numbers are binary64 values: every arithmetic result is rounded to the nearest
binary64 value (ties to even), overflows to an infinity, and NaN and the infinities follow
the IEEE 754 rules. A finite value is held as the rational it denotes; `+0` and `-0` are
identified, which no operation of the engine can tell apart. `undefined` is `none`, and each
`Math.random()` call site takes a value that the caller passes in.
-/

namespace ParticleSystem

/-- Round to the nearest integer, a tie going to the even neighbour. -/
def roundEven (q : ℚ) : ℤ :=
  if q - Int.floor q < 1 / 2 then Int.floor q
  else if 1 / 2 < q - Int.floor q then Int.floor q + 1
  else if Int.floor q % 2 = 0 then Int.floor q
  else Int.floor q + 1

/-- The binade exponent of a positive rational, not below the smallest normal exponent. -/
def binade (q : ℚ) : ℤ := max (Int.log 2 q) (-1022)

/-- The spacing of binary64 values around a positive rational. -/
def ulp (q : ℚ) : ℚ := 2 ^ (binade q - 52)

/-- Round a positive rational to the nearest multiple of its `ulp`. -/
def roundPos (q : ℚ) : ℚ := roundEven (q / ulp q) * ulp q

/-- Round to nearest binary64, ties to even, with an unbounded exponent range above. -/
def fl (q : ℚ) : ℚ :=
  if 0 < q then roundPos q else if q < 0 then -roundPos (-q) else 0

/-- A JavaScript number: a finite binary64 value (held as the rational it denotes, the two
zeros identified), an infinity or NaN. -/
inductive Num where
  | fin (q : ℚ)
  | posInf
  | negInf
  | nan
deriving DecidableEq

/-- The number a real-valued result is rounded to: the nearest binary64 value, or an
infinity when that rounding reaches `2 ^ 1024`. -/
def Num.ofRat (q : ℚ) : Num :=
  if 2 ^ 1024 ≤ fl q then Num.posInf
  else if fl q ≤ -2 ^ 1024 then Num.negInf
  else Num.fin (fl q)

/-- A decimal literal of the source, such as `0.98`. -/
def Num.lit (q : ℚ) : Num := Num.ofRat q

/-- Unary minus. -/
def Num.neg : Num → Num
  | Num.fin q => Num.fin (-q)
  | Num.posInf => Num.negInf
  | Num.negInf => Num.posInf
  | Num.nan => Num.nan

/-- JavaScript `a + b`. -/
def Num.add : Num → Num → Num
  | Num.fin a, Num.fin b => Num.ofRat (a + b)
  | Num.nan, _ => Num.nan
  | _, Num.nan => Num.nan
  | Num.posInf, Num.negInf => Num.nan
  | Num.negInf, Num.posInf => Num.nan
  | Num.posInf, _ => Num.posInf
  | _, Num.posInf => Num.posInf
  | Num.negInf, _ => Num.negInf
  | _, Num.negInf => Num.negInf

/-- JavaScript `a - b`. -/
def Num.sub (a b : Num) : Num := Num.add a (Num.neg b)

/-- The product of an infinity of the given sign (`true` is positive) with `b`. -/
def Num.mulInf (positive : Bool) : Num → Num
  | Num.fin b =>
    if b = 0 then Num.nan
    else if decide (0 < b) = positive then Num.posInf else Num.negInf
  | Num.posInf => if positive then Num.posInf else Num.negInf
  | Num.negInf => if positive then Num.negInf else Num.posInf
  | Num.nan => Num.nan

/-- JavaScript `a * b`. -/
def Num.mul : Num → Num → Num
  | Num.fin a, Num.fin b => Num.ofRat (a * b)
  | Num.nan, _ => Num.nan
  | Num.posInf, b => Num.mulInf true b
  | Num.negInf, b => Num.mulInf false b
  | a, Num.posInf => Num.mulInf true a
  | a, Num.negInf => Num.mulInf false a
  | _, Num.nan => Num.nan

/-- JavaScript `a < b` (`b > a`): false as soon as one side is NaN. -/
def Num.lt : Num → Num → Bool
  | Num.fin a, Num.fin b => decide (a < b)
  | Num.fin _, Num.posInf => true
  | Num.negInf, Num.fin _ => true
  | Num.negInf, Num.posInf => true
  | _, _ => false

/-- JavaScript truthiness of a number: `0` and NaN are falsy. -/
def Num.truthy : Num → Bool
  | Num.fin q => decide (q ≠ 0)
  | Num.nan => false
  | _ => true

/-- A finite value that rounding leaves alone: a binary64 value below `2 ^ 1024` in
magnitude. The infinities and NaN are values of every JavaScript number too. -/
def Num.IsDouble : Num → Prop
  | Num.fin q => Num.ofRat q = Num.fin q
  | _ => True

/-- The rational a finite number denotes (`0` for the infinities and NaN). -/
def Num.toRat : Num → ℚ
  | Num.fin q => q
  | _ => 0

/-- The particle object literal of `createParticle` (lines 10-20) plus its `element`
(line 32), held as the index of the element among all elements created so far. -/
structure Particle where
  x : Num
  y : Num
  vx : Num
  vy : Num
  size : Num
  color : String
  life : Num
  maxLife : Num
  gravity : Num
  element : Nat
deriving DecidableEq

/-- The `div` built in lines 22-29 and restyled in lines 53-54: class name, the style
properties the engine writes (lengths in px) and the `translate(..px, ..px)` transform. -/
structure Element where
  className : String
  width : Num
  height : Num
  color : String
  left : Num
  top : Num
  opacity : Num
  transform : Option (Num × Num)
deriving DecidableEq

/-- The `options` argument: every recognised field may be `undefined`. -/
structure Options where
  vx : Option Num
  vy : Option Num
  size : Option Num
  color : Option String
  life : Option Num
  gravity : Option Num
deriving DecidableEq

/-- The default `options = {}`. -/
def Options.empty : Options :=
  { vx := none, vy := none, size := none, color := none, life := none, gravity := none }

/-- One value per `Math.random()` call site of `createParticle` (lines 11-16). -/
structure Draws where
  rx : Num
  ry : Num
  rvx : Num
  rvy : Num
  rsize : Num
  rcolor : Num

/-- The engine (`particles`, `container`, `animationId`, lines 4-6) and the browser state it
reads and writes: `dom` lists every element created so far (an element's index is its
identity), `container` the indices of the current children of the particle container,
`rafQueue` the handles of the `() => this.update()` callbacks waiting for the next display
frame, `rafNext` the next handle `requestAnimationFrame` returns. -/
structure World where
  particles : List Particle
  container : List Nat
  animationId : Option Nat
  dom : List Element
  rafQueue : List Nat
  rafNext : Nat
  innerWidth : Num
  innerHeight : Num

/-- The state after `new ParticleSystem()` (lines 3-7) in a viewport of the given size. -/
def init (W H : Num) : World :=
  { particles := [], container := [], animationId := none, dom := [], rafQueue := [],
    rafNext := 1, innerWidth := W, innerHeight := H }

/-- JavaScript `v || d` on a number that may be `undefined`: `undefined`, `0` and NaN are
falsy. -/
def numOr (v : Option Num) (d : Num) : Num :=
  match v with
  | some a => if a.truthy then a else d
  | none => d

/-- JavaScript `v || d` on a string that may be `undefined`: `undefined` and `''` are falsy. -/
def strOr (v : Option String) (d : String) : String :=
  match v with
  | some a => if a = "" then d else a
  | none => d

/-- JavaScript `v !== undefined ? v : d`. -/
def definedOr (v : Option Num) (d : Num) : Num :=
  match v with
  | some a => a
  | none => d

/-- The color table of line 16. -/
def palette : List String := ["#6366f1", "#ec4899", "#06b6d4", "#f59e0b"]

/-- The palette entry `[...][Math.floor(r * 4)]` of line 16; an index that is not one of
`0..3` reads `undefined`. -/
def pickColor (r : Num) : String :=
  match Num.mul r (Num.lit 4) with
  | Num.fin q =>
    if 0 ≤ Int.floor q then palette.getD (Int.toNat (Int.floor q)) "undefined" else "undefined"
  | _ => "undefined"

/-- The method `createParticle(x, y, options)` (lines 9-36): returns the particle and the new state. -/
def createParticle (w : World) (x y : Option Num) (options : Options) (r : Draws) :
    Particle × World :=
  let particle : Particle :=
    { x := numOr x (Num.mul r.rx w.innerWidth)
      y := numOr y (Num.mul r.ry w.innerHeight)
      vx := definedOr options.vx (Num.mul (Num.sub r.rvx (Num.lit 0.5)) (Num.lit 4))
      vy := definedOr options.vy (Num.mul (Num.sub r.rvy (Num.lit 0.5)) (Num.lit 4))
      size := numOr options.size (Num.add (Num.mul r.rsize (Num.lit 4)) (Num.lit 2))
      color := strOr options.color (pickColor r.rcolor)
      life := numOr options.life (Num.lit 1)
      maxLife := numOr options.life (Num.lit 1)
      gravity := definedOr options.gravity (Num.lit 0.05)
      element := w.dom.length }
  let el : Element :=
    { className := "particle"
      width := particle.size
      height := particle.size
      color := particle.color
      left := particle.x
      top := particle.y
      opacity := particle.life
      transform := none }
  (particle,
    { w with
      dom := w.dom ++ [el]
      container := w.container ++ [w.dom.length]
      particles := w.particles ++ [particle] })

/-- The body of the `forEach` callback of `update` on the particle record (lines 42-51),
every operation rounded as JavaScript does, in the order the source performs them. -/
def stepParticle (W H : Num) (p : Particle) : Particle :=
  let vx1 := Num.mul p.vx (Num.lit 0.98)
  let vy1 := Num.mul p.vy (Num.lit 0.98)
  let vy2 := Num.add vy1 p.gravity
  let x1 := Num.add p.x vx1
  let y1 := Num.add p.y vy2
  let life1 := Num.sub p.life (Num.lit 0.008)
  let vx2 := if (Num.lt x1 (Num.fin 0) || Num.lt W x1) = true
    then Num.mul vx1 (Num.neg (Num.lit 0.8)) else vx1
  let vy3 := if (Num.lt y1 (Num.fin 0) || Num.lt H y1) = true
    then Num.mul vy2 (Num.neg (Num.lit 0.8)) else vy2
  { p with x := x1, y := y1, vx := vx2, vy := vy3, life := life1 }

/-- Apply `f` to the element with index `i`, if there is one. -/
def modifyAt (f : Element → Element) : Nat → List Element → List Element
  | _, [] => []
  | 0, e :: es => f e :: es
  | i + 1, e :: es => e :: modifyAt f i es

/-- The two style properties that lines 53-54 set on the element of an advanced particle. -/
def restyle (p : Particle) (e : Element) : Element :=
  { e with transform := some (p.x, p.y), opacity := p.life }

/-- The two style writes of lines 53-54 for an already advanced particle. -/
def writeStyle (dom : List Element) (p : Particle) : List Element :=
  modifyAt (restyle p) p.element dom

/-- The method `update()` (lines 38-60). -/
def update (w : World) : World :=
  let kept := w.particles.filter (fun p => Num.lt (Num.fin 0) p.life)
  let moved := kept.map (stepParticle w.innerWidth w.innerHeight)
  let w1 : World := { w with particles := moved, dom := moved.foldl writeStyle w.dom }
  if moved.length > 0 then
    { w1 with
      animationId := some w.rafNext
      rafQueue := w.rafQueue ++ [w.rafNext]
      rafNext := w.rafNext + 1 }
  else w1

/-- The `for` loop of `emit` (lines 63-65): `n` calls of `createParticle`, the `i`-th with the
random draws `rs i`. -/
def emitLoop (x y : Option Num) (options : Options) (rs : Nat → Draws) : Nat → World → World
  | 0, w => w
  | n + 1, w => (createParticle (emitLoop x y options rs n w) x y options (rs n)).2

/-- The method `emit(x, y, count = 5, options = {})` (lines 62-67). -/
def emit (w : World) (x y : Option Num) (count : Option Nat) (options : Option Options)
    (rs : Nat → Draws) : World :=
  update (emitLoop x y (options.getD Options.empty) rs (count.getD 5) w)

/-- The method `clear()` (lines 69-73): `remove()` drops an element from the container's
children, `cancelAnimationFrame(id)` drops the callback with that handle from the queue. -/
def clear (w : World) : World :=
  let w1 : World :=
    { w with
      container := w.particles.foldl (fun c p => c.filter (fun i => decide (i ≠ p.element)))
        w.container
      particles := [] }
  match w.animationId with
  | some id => if id ≠ 0 then { w1 with rafQueue := w1.rafQueue.filter (fun h => decide (h ≠ id)) } else w1
  | none => w1

/-- One display frame: the browser takes the callbacks queued so far and runs each of them;
every one is `() => this.update()` (line 58). Callbacks queued meanwhile wait for the next
frame. -/
def frame (w : World) : World :=
  w.rafQueue.foldl (fun s _ => update s) { w with rafQueue := [] }

/-- Where an element is painted: its `left`/`top` offset plus its `translate` transform. -/
def displayed (e : Element) : Num × Num :=
  match e.transform with
  | some t => (Num.add e.left t.1, Num.add e.top t.2)
  | none => (e.left, e.top)

/-- The per-frame decay of line 48, `life -= 0.008`. -/
def decay (l : Num) : Num := Num.sub l (Num.lit 0.008)

/-- Every live particle has an element of its own among the elements created so far. -/
def HandlesOk (w : World) : Prop :=
  (w.particles.map Particle.element).Nodup ∧ ∀ p ∈ w.particles, p.element < w.dom.length

/-- Draws used in the concrete scenarios (every draw is `0.5`). -/
def halfDraws : Draws :=
  { rx := Num.lit 0.5, ry := Num.lit 0.5, rvx := Num.lit 0.5, rvy := Num.lit 0.5,
    rsize := Num.lit 0.5, rcolor := Num.lit 0.5 }

/-- The options of the spec's scenario `{vx: 0, vy: 0, size: 3, color: '#fff', life: 1, gravity: 0.1}`. -/
def scenarioOptions : Options :=
  { vx := some (Num.lit 0), vy := some (Num.lit 0), size := some (Num.lit 3),
    color := some "#fff", life := some (Num.lit 1), gravity := some (Num.lit 0.1) }

/-- A particle right of a 10 px wide viewport moving right: `x = 11`, `vx = 1`, life `1`. -/
def edgeParticle : Particle :=
  { x := Num.lit 11, y := Num.lit 5, vx := Num.lit 1, vy := Num.lit 0, size := Num.lit 3,
    color := "#fff", life := Num.lit 1, maxLife := Num.lit 1, gravity := Num.lit 0,
    element := 0 }

/-- An engine in a 10 x 10 viewport whose only live particle is `edgeParticle`. -/
def edgeWorld : World :=
  { particles := [edgeParticle], container := [0],
    animationId := none,
    dom := [{ className := "particle", width := Num.lit 3, height := Num.lit 3,
              color := "#fff", left := Num.lit 11, top := Num.lit 5, opacity := Num.lit 1,
              transform := none }],
    rafQueue := [], rafNext := 1, innerWidth := Num.lit 10, innerHeight := Num.lit 10 }

/-- A particle whose next `x` is not the real number `x + 0.98 * vx`: `x = 2.401`,
`vx = -2.45`, at rest vertically. -/
def roundingParticle : Particle :=
  { x := Num.lit 2.401, y := Num.lit 5, vx := Num.neg (Num.lit 2.45), vy := Num.lit 0,
    size := Num.lit 3, color := "#fff", life := Num.lit 1, maxLife := Num.lit 1,
    gravity := Num.lit 0, element := 0 }

/-- An engine in a 10 x 10 viewport whose only live particle is `roundingParticle`. -/
def roundingWorld : World :=
  { particles := [roundingParticle], container := [0],
    animationId := none,
    dom := [{ className := "particle", width := Num.lit 3, height := Num.lit 3,
              color := "#fff", left := Num.lit 2.401, top := Num.lit 5, opacity := Num.lit 1,
              transform := none }],
    rafQueue := [], rafNext := 1, innerWidth := Num.lit 10, innerHeight := Num.lit 10 }

/-- Options of a particle that one decay step exhausts: `life: 0.008`, no motion. -/
def shortOptions : Options :=
  { vx := some (Num.lit 0), vy := some (Num.lit 0), size := some (Num.lit 3),
    color := some "#fff", life := some (Num.lit 0.008), gravity := some (Num.lit 0) }

/-- The engine after `createParticle(100, 100, shortOptions)` on a fresh engine in a
1920 x 1080 viewport. -/
def shortWorld : World :=
  (createParticle (init (Num.lit 1920) (Num.lit 1080)) (some (Num.lit 100)) (some (Num.lit 100))
    shortOptions halfDraws).2

/-- Options with a negative life, `{life: -1}`. -/
def negativeLifeOptions : Options :=
  { vx := none, vy := none, size := none, color := none, life := some (Num.neg (Num.lit 1)),
    gravity := none }

/-- Options whose `size`, `color` and `life` are supplied but falsy: `{size: 0, color: '', life: 0}`. -/
def falsyOptions : Options :=
  { vx := none, vy := none, size := some (Num.lit 0), color := some "",
    life := some (Num.lit 0), gravity := none }

/-- Options of a particle that two decay steps exhaust: `life: 0.016`, no motion. -/
def twoStepOptions : Options :=
  { vx := some (Num.lit 0), vy := some (Num.lit 0), size := some (Num.lit 3),
    color := some "#fff", life := some (Num.lit 0.016), gravity := some (Num.lit 0) }

/-- The engine after `createParticle(100, 100, twoStepOptions)` on a fresh engine in a
1920 x 1080 viewport. -/
def twoStepWorld : World :=
  (createParticle (init (Num.lit 1920) (Num.lit 1080)) (some (Num.lit 100)) (some (Num.lit 100))
    twoStepOptions halfDraws).2

/-- The engine after `createParticle(100, 100, scenarioOptions)` on a fresh engine in a
1920 x 1080 viewport. -/
def scenarioWorld : World :=
  (createParticle (init (Num.lit 1920) (Num.lit 1080)) (some (Num.lit 100)) (some (Num.lit 100))
    scenarioOptions halfDraws).2

/-- The engine after `emit(50, 50, 1, scenarioOptions)` called twice in a row on a fresh
engine in a 1920 x 1080 viewport, with no display frame in between. -/
def twiceEmitted : World :=
  emit (emit (init (Num.lit 1920) (Num.lit 1080)) (some (Num.lit 50)) (some (Num.lit 50))
    (some 1) (some scenarioOptions) (fun _ => halfDraws)) (some (Num.lit 50))
    (some (Num.lit 50)) (some 1) (some scenarioOptions) (fun _ => halfDraws)

theorem roundEven_intCast (n : ℤ) : roundEven (n : ℚ) = n := by
  simp [roundEven]

theorem floor_le_roundEven (q : ℚ) : Int.floor q ≤ roundEven q := by
  unfold roundEven
  split_ifs <;> omega

theorem roundEven_le_floor_succ (q : ℚ) : roundEven q ≤ Int.floor q + 1 := by
  unfold roundEven
  split_ifs <;> omega

theorem le_roundEven (q : ℚ) (n : ℤ) (h : (n : ℚ) ≤ q) : n ≤ roundEven q :=
  le_trans (Int.le_floor.mpr h) (floor_le_roundEven q)

theorem roundEven_le (q : ℚ) (n : ℤ) (h : q ≤ (n : ℚ)) : roundEven q ≤ n := by
  rcases lt_or_eq_of_le h with h1 | h1
  · have : Int.floor q < n := Int.floor_lt.mpr h1
    have := roundEven_le_floor_succ q
    omega
  · rw [h1, roundEven_intCast]

theorem roundEven_mono {a b : ℚ} (h : a ≤ b) : roundEven a ≤ roundEven b := by
  rcases lt_or_eq_of_le (Int.floor_mono h) with hf | hf
  · have h1 := roundEven_le_floor_succ a
    have h2 := floor_le_roundEven b
    omega
  · unfold roundEven
    rw [hf]
    split_ifs <;> first | omega | (exfalso; linarith)

/-- Half-way or more above `n - 1/2` rounds to at least `n`. -/
theorem roundEven_pos {q : ℚ} (h : 1 / 2 < q) : 1 ≤ roundEven q := by
  rcases le_or_lt 1 q with h1 | h1
  · exact le_roundEven q 1 (by simpa using h1)
  · have hf : Int.floor q = 0 := Int.floor_eq_iff.mpr ⟨by simp; linarith, by simp; linarith⟩
    unfold roundEven
    rw [hf]
    have h3 : (2 : ℚ)⁻¹ < q := by rw [inv_eq_one_div]; exact h
    have h2 : ¬ q < (2 : ℚ)⁻¹ := not_lt.mpr h3.le
    simp [h2, h3]

theorem binade_ge (q : ℚ) : -1022 ≤ binade q := le_max_right _ _

theorem ulp_pos (q : ℚ) : 0 < ulp q := by
  unfold ulp
  positivity

theorem ulp_ge (q : ℚ) : (2 : ℚ) ^ (-1074 : ℤ) ≤ ulp q := by
  unfold ulp
  apply zpow_le_zpow_right₀ (by norm_num)
  have := binade_ge q
  omega

theorem binade_mono {a b : ℚ} (ha : 0 < a) (h : a ≤ b) : binade a ≤ binade b := by
  unfold binade
  exact max_le_max (Int.log_mono_right ha h) le_rfl

/-- A positive rational lies below the top of its binade. -/
theorem lt_zpow_binade_succ (q : ℚ) : q < 2 ^ (binade q + 1) := by
  have h1 : q < ((2 : ℕ) : ℚ) ^ (Int.log 2 q + 1) := Int.lt_zpow_succ_log_self (by norm_num) q
  have h2 : ((2 : ℕ) : ℚ) ^ (Int.log 2 q + 1) ≤ (2 : ℚ) ^ (binade q + 1) := by
    push_cast
    apply zpow_le_zpow_right₀ (by norm_num)
    unfold binade
    have := le_max_left (Int.log 2 q) (-1022)
    omega
  exact lt_of_lt_of_le h1 h2

/-- Above the subnormal range a positive rational is at least the bottom of its binade. -/
theorem zpow_binade_le {q : ℚ} (hq : 0 < q) (h : -1022 < binade q) : 2 ^ binade q ≤ q := by
  have hb : binade q = Int.log 2 q := by
    unfold binade at h ⊢
    rcases max_cases (Int.log 2 q) (-1022) with ⟨h1, _⟩ | ⟨h1, _⟩
    · exact h1
    · rw [h1] at h; exact absurd h (lt_irrefl _)
  rw [hb]
  have := Int.zpow_log_le_self (b := 2) (r := q) (by norm_num) hq
  simpa using this

theorem two_pow_mul_ulp (q : ℚ) (k : ℕ) (e : ℤ) (he : binade q - 52 + k = e) :
    (((2 : ℤ) ^ k : ℤ) : ℚ) * ulp q = 2 ^ e := by
  unfold ulp
  rw [Int.cast_pow, Int.cast_ofNat, ← zpow_natCast (2 : ℚ) k, ← zpow_add₀ (by norm_num), ← he]
  congr 1
  ring

theorem roundPos_nonneg {q : ℚ} (hq : 0 < q) : 0 ≤ roundPos q := by
  unfold roundPos
  apply mul_nonneg _ (ulp_pos q).le
  have : (0 : ℤ) ≤ roundEven (q / ulp q) :=
    le_roundEven _ 0 (by simpa using (div_pos hq (ulp_pos q)).le)
  exact_mod_cast this

/-- The rounded value does not exceed the top of the binade. -/
theorem roundPos_le_top {q : ℚ} (_hq : 0 < q) : roundPos q ≤ 2 ^ (binade q + 1) := by
  unfold roundPos
  have hu := ulp_pos q
  have h1 : q / ulp q ≤ ((2 ^ 53 : ℤ) : ℚ) := by
    rw [div_le_iff₀ hu]
    have h2 : (((2 : ℤ) ^ 53 : ℤ) : ℚ) * ulp q = 2 ^ (binade q + 1) :=
      two_pow_mul_ulp q 53 _ (by push_cast; ring)
    rw [h2]
    exact (lt_zpow_binade_succ q).le
  have h3 := roundEven_le _ _ h1
  have h4 : ((roundEven (q / ulp q) : ℤ) : ℚ) ≤ ((2 ^ 53 : ℤ) : ℚ) := by exact_mod_cast h3
  calc (roundEven (q / ulp q) : ℚ) * ulp q ≤ ((2 ^ 53 : ℤ) : ℚ) * ulp q :=
        mul_le_mul_of_nonneg_right h4 hu.le
    _ = 2 ^ (binade q + 1) := two_pow_mul_ulp q 53 _ (by push_cast; ring)

/-- Above the subnormal range the rounded value is at least the bottom of the binade. -/
theorem bottom_le_roundPos {q : ℚ} (hq : 0 < q) (h : -1022 < binade q) :
    2 ^ binade q ≤ roundPos q := by
  unfold roundPos
  have hu := ulp_pos q
  have hbot : (((2 : ℤ) ^ 52 : ℤ) : ℚ) * ulp q = 2 ^ binade q :=
    two_pow_mul_ulp q 52 _ (by push_cast; ring)
  have h1 : ((2 ^ 52 : ℤ) : ℚ) ≤ q / ulp q := by
    rw [le_div_iff₀ hu, hbot]
    exact zpow_binade_le hq h
  have h3 := le_roundEven _ _ h1
  have h4 : ((2 ^ 52 : ℤ) : ℚ) ≤ ((roundEven (q / ulp q) : ℤ) : ℚ) := by exact_mod_cast h3
  calc (2 : ℚ) ^ binade q = ((2 ^ 52 : ℤ) : ℚ) * ulp q := hbot.symm
    _ ≤ (roundEven (q / ulp q) : ℚ) * ulp q := mul_le_mul_of_nonneg_right h4 hu.le

theorem roundPos_mono {a b : ℚ} (ha : 0 < a) (h : a ≤ b) : roundPos a ≤ roundPos b := by
  have hb : 0 < b := lt_of_lt_of_le ha h
  rcases lt_or_eq_of_le (binade_mono ha h) with he | he
  · have h1 := roundPos_le_top ha
    have h2 := bottom_le_roundPos hb (lt_of_le_of_lt (binade_ge a) he)
    have h3 : (2 : ℚ) ^ (binade a + 1) ≤ 2 ^ binade b :=
      zpow_le_zpow_right₀ (by norm_num) (by omega)
    linarith
  · have hu : ulp a = ulp b := by unfold ulp; rw [he]
    unfold roundPos
    rw [hu]
    have h1 : a / ulp b ≤ b / ulp b := div_le_div_of_nonneg_right h (ulp_pos b).le
    have h2 := roundEven_mono h1
    have h3 : ((roundEven (a / ulp b) : ℤ) : ℚ) ≤ ((roundEven (b / ulp b) : ℤ) : ℚ) := by
      exact_mod_cast h2
    exact mul_le_mul_of_nonneg_right h3 (ulp_pos b).le

theorem fl_mono {a b : ℚ} (h : a ≤ b) : fl a ≤ fl b := by
  unfold fl
  by_cases ha : 0 < a
  · have hb : 0 < b := lt_of_lt_of_le ha h
    rw [if_pos ha, if_pos hb]
    exact roundPos_mono ha h
  · rw [if_neg ha]
    by_cases ha2 : a < 0
    · rw [if_pos ha2]
      have hna : 0 ≤ roundPos (-a) := roundPos_nonneg (by linarith)
      by_cases hb : 0 < b
      · rw [if_pos hb]
        have := roundPos_nonneg hb
        linarith
      · rw [if_neg hb]
        by_cases hb2 : b < 0
        · rw [if_pos hb2]
          have := roundPos_mono (a := -b) (b := -a) (by linarith) (by linarith)
          linarith
        · rw [if_neg hb2]
          linarith
    · rw [if_neg ha2]
      have ha0 : a = 0 := le_antisymm (not_lt.mp ha) (not_lt.mp ha2)
      by_cases hb : 0 < b
      · rw [if_pos hb]
        exact roundPos_nonneg hb
      · rw [if_neg hb]
        have hb2 : ¬ b < 0 := by linarith
        rw [if_neg hb2]

theorem fl_neg (q : ℚ) : fl (-q) = -fl q := by
  unfold fl
  by_cases h1 : 0 < q
  · have h2 : ¬ (0 < -q) := by linarith
    have h3 : -q < 0 := by linarith
    rw [if_pos h1, if_neg h2, if_pos h3, neg_neg]
  · by_cases h2 : q < 0
    · have h3 : 0 < -q := by linarith
      rw [if_neg h1, if_pos h2, if_pos h3, neg_neg]
    · have h3 : ¬ (0 < -q) := by linarith
      have h4 : ¬ (-q < 0) := by linarith
      rw [if_neg h1, if_neg h2, if_neg h3, if_neg h4, neg_zero]

theorem fl_zero : fl 0 = 0 := by simp [fl]

theorem roundEven_eq_of_near (q : ℚ) (n : ℤ) (h1 : (n : ℚ) - 1 / 2 < q)
    (h2 : q < (n : ℚ) + 1 / 2) : roundEven q = n := by
  rcases le_or_lt (n : ℚ) q with h | h
  · have hf : Int.floor q = n := Int.floor_eq_iff.mpr ⟨h, by linarith⟩
    unfold roundEven
    rw [hf, if_pos (by linarith)]
  · have hf : Int.floor q = n - 1 := Int.floor_eq_iff.mpr ⟨by push_cast; linarith, by push_cast; linarith⟩
    unfold roundEven
    rw [hf, if_neg (by push_cast; linarith), if_pos (by push_cast; linarith)]
    ring

theorem binade_eq (q : ℚ) (e : ℤ) (hq : 0 < q) (he : -1022 ≤ e)
    (hlo : (2 : ℚ) ^ e ≤ q ∨ e = -1022) (hhi : q < 2 ^ (e + 1)) : binade q = e := by
  have hlog : Int.log 2 q < e + 1 :=
    (Int.lt_zpow_iff_log_lt (b := 2) (by norm_num) hq).mp (by simpa using hhi)
  unfold binade
  rcases hlo with h | h
  · have h2 : e ≤ Int.log 2 q :=
      (Int.zpow_le_iff_le_log (b := 2) (by norm_num) hq).mp (by simpa using h)
    rw [max_eq_left (by omega)]
    omega
  · rw [max_eq_right (by omega)]
    exact h.symm

theorem roundPos_eq (q : ℚ) (e n : ℤ) (hq : 0 < q) (he : -1022 ≤ e)
    (hlo : (2 : ℚ) ^ e ≤ q ∨ e = -1022) (hhi : q < 2 ^ (e + 1))
    (h1 : (n : ℚ) - 1 / 2 < q / 2 ^ (e - 52)) (h2 : q / 2 ^ (e - 52) < (n : ℚ) + 1 / 2) :
    roundPos q = n * 2 ^ (e - 52) := by
  unfold roundPos ulp
  rw [binade_eq q e hq he hlo hhi, roundEven_eq_of_near _ n h1 h2]

theorem fl_eq_of_pos (q r : ℚ) (e n : ℤ) (hq : 0 < q) (he : -1022 ≤ e)
    (hlo : (2 : ℚ) ^ e ≤ q ∨ e = -1022) (hhi : q < 2 ^ (e + 1))
    (h1 : (n : ℚ) - 1 / 2 < q / 2 ^ (e - 52)) (h2 : q / 2 ^ (e - 52) < (n : ℚ) + 1 / 2)
    (hr : r = n * 2 ^ (e - 52)) : fl q = r := by
  unfold fl
  rw [if_pos hq, roundPos_eq q e n hq he hlo hhi h1 h2, hr]

theorem fl_eq_of_neg (q r : ℚ) (e n : ℤ) (hq : q < 0) (he : -1022 ≤ e)
    (hlo : (2 : ℚ) ^ e ≤ -q ∨ e = -1022) (hhi : -q < 2 ^ (e + 1))
    (h1 : (n : ℚ) - 1 / 2 < -q / 2 ^ (e - 52)) (h2 : -q / 2 ^ (e - 52) < (n : ℚ) + 1 / 2)
    (hr : r = -(n * 2 ^ (e - 52))) : fl q = r := by
  have h := fl_eq_of_pos (-q) (-r) e n (by linarith) he hlo hhi h1 h2 (by rw [hr]; ring)
  rw [fl_neg] at h
  linarith

theorem roundEven_eq_of_tie (q : ℚ) (n : ℤ) (heven : n % 2 = 0)
    (h : q = (n : ℚ) + 1 / 2 ∨ q = (n : ℚ) - 1 / 2) : roundEven q = n := by
  rcases h with h | h
  · have hf : Int.floor q = n := Int.floor_eq_iff.mpr ⟨by linarith, by linarith⟩
    unfold roundEven
    rw [hf, if_neg (by linarith), if_neg (by linarith), if_pos heven]
  · have hf : Int.floor q = n - 1 :=
      Int.floor_eq_iff.mpr ⟨by push_cast; linarith, by push_cast; linarith⟩
    have hodd : ¬ (n - 1) % 2 = 0 := by omega
    unfold roundEven
    rw [hf, if_neg (by push_cast; linarith), if_neg (by push_cast; linarith), if_neg hodd]
    ring

theorem fl_eq_of_pos_tie (q r : ℚ) (e n : ℤ) (hq : 0 < q) (he : -1022 ≤ e)
    (hlo : (2 : ℚ) ^ e ≤ q ∨ e = -1022) (hhi : q < 2 ^ (e + 1)) (heven : n % 2 = 0)
    (h : q / 2 ^ (e - 52) = (n : ℚ) + 1 / 2 ∨ q / 2 ^ (e - 52) = (n : ℚ) - 1 / 2)
    (hr : r = n * 2 ^ (e - 52)) : fl q = r := by
  unfold fl
  rw [if_pos hq, hr]
  unfold roundPos ulp
  rw [binade_eq q e hq he hlo hhi, roundEven_eq_of_tie _ n heven h]

theorem ofRat_of_fl (q r : ℚ) (h : fl q = r) (hlo : -2 ^ 1024 < r) (hhi : r < 2 ^ 1024) :
    Num.ofRat q = Num.fin r := by
  unfold Num.ofRat
  rw [h, if_neg (not_le.mpr hhi), if_neg (not_le.mpr hlo)]

theorem ofRat_eq_of_pos (q r : ℚ) (e n : ℤ) (hq : 0 < q) (he : -1022 ≤ e)
    (hlo : (2 : ℚ) ^ e ≤ q ∨ e = -1022) (hhi : q < 2 ^ (e + 1))
    (h1 : (n : ℚ) - 1 / 2 < q / 2 ^ (e - 52)) (h2 : q / 2 ^ (e - 52) < (n : ℚ) + 1 / 2)
    (hr : r = n * 2 ^ (e - 52)) (hmin : -2 ^ 1024 < r) (hmax : r < 2 ^ 1024) :
    Num.ofRat q = Num.fin r :=
  ofRat_of_fl q r (fl_eq_of_pos q r e n hq he hlo hhi h1 h2 hr) hmin hmax

theorem ofRat_eq_of_neg (q r : ℚ) (e n : ℤ) (hq : q < 0) (he : -1022 ≤ e)
    (hlo : (2 : ℚ) ^ e ≤ -q ∨ e = -1022) (hhi : -q < 2 ^ (e + 1))
    (h1 : (n : ℚ) - 1 / 2 < -q / 2 ^ (e - 52)) (h2 : -q / 2 ^ (e - 52) < (n : ℚ) + 1 / 2)
    (hr : r = -(n * 2 ^ (e - 52))) (hmin : -2 ^ 1024 < r) (hmax : r < 2 ^ 1024) :
    Num.ofRat q = Num.fin r :=
  ofRat_of_fl q r (fl_eq_of_neg q r e n hq he hlo hhi h1 h2 hr) hmin hmax

theorem ofRat_eq_of_pos_tie (q r : ℚ) (e n : ℤ) (hq : 0 < q) (he : -1022 ≤ e)
    (hlo : (2 : ℚ) ^ e ≤ q ∨ e = -1022) (hhi : q < 2 ^ (e + 1)) (heven : n % 2 = 0)
    (h : q / 2 ^ (e - 52) = (n : ℚ) + 1 / 2 ∨ q / 2 ^ (e - 52) = (n : ℚ) - 1 / 2)
    (hr : r = n * 2 ^ (e - 52)) (hmin : -2 ^ 1024 < r) (hmax : r < 2 ^ 1024) :
    Num.ofRat q = Num.fin r :=
  ofRat_of_fl q r (fl_eq_of_pos_tie q r e n hq he hlo hhi heven h hr) hmin hmax

@[simp] theorem ofRat_zero : Num.ofRat 0 = Num.fin 0 :=
  ofRat_of_fl 0 0 fl_zero (by norm_num) (by norm_num)

/-- A positive rational above half the smallest subnormal rounds to a positive value. -/
theorem roundPos_pos {q : ℚ} (hq : 0 < q) (h : (2 : ℚ) ^ (-1075 : ℤ) < q) : 0 < roundPos q := by
  unfold roundPos
  have hu := ulp_pos q
  apply mul_pos _ hu
  have hhalf : 1 / 2 < q / ulp q := by
    rw [lt_div_iff₀ hu]
    rcases lt_or_eq_of_le (binade_ge q) with hb | hb
    · have h1 := zpow_binade_le hq hb
      have h2 : ulp q ≤ 2 ^ binade q := by
        unfold ulp
        exact zpow_le_zpow_right₀ (by norm_num) (by omega)
      linarith
    · have h2 : ulp q = 2 ^ (-1074 : ℤ) := by
        unfold ulp
        rw [← hb]
        norm_num
      rw [h2]
      have h3 : (1 : ℚ) / 2 * 2 ^ (-1074 : ℤ) = 2 ^ (-1075 : ℤ) := by
        rw [show (-1074 : ℤ) = -1075 + 1 by norm_num, zpow_add_one₀ (by norm_num)]
        ring
      rw [h3]
      exact h
  have := roundEven_pos hhalf
  exact_mod_cast this

/-- A positive rounded value is at least the smallest subnormal. -/
theorem roundPos_ge_of_pos {q : ℚ} (h : 0 < roundPos q) : (2 : ℚ) ^ (-1074 : ℤ) ≤ roundPos q := by
  unfold roundPos at h ⊢
  have hu := ulp_pos q
  have hn : (0 : ℚ) < (roundEven (q / ulp q) : ℚ) := by
    by_contra hc
    have hc2 : (roundEven (q / ulp q) : ℚ) ≤ 0 := not_lt.mp hc
    have := mul_nonpos_of_nonpos_of_nonneg hc2 hu.le
    linarith
  have hn1 : (1 : ℤ) ≤ roundEven (q / ulp q) := by
    have : (0 : ℤ) < roundEven (q / ulp q) := by exact_mod_cast hn
    omega
  have hn2 : (1 : ℚ) ≤ (roundEven (q / ulp q) : ℚ) := by exact_mod_cast hn1
  calc (2 : ℚ) ^ (-1074 : ℤ) ≤ ulp q := ulp_ge q
    _ = 1 * ulp q := (one_mul _).symm
    _ ≤ (roundEven (q / ulp q) : ℚ) * ulp q := mul_le_mul_of_nonneg_right hn2 hu.le

theorem roundPos_def (q : ℚ) : roundPos q = roundEven (q / ulp q) * ulp q := rfl

theorem roundPos_idem {q : ℚ} (hq : 0 < q) (hr : 0 < roundPos q) :
    roundPos (roundPos q) = roundPos q := by
  have hu := ulp_pos q
  have htop := roundPos_le_top hq
  have hlo : (2 : ℚ) ^ binade q ≤ roundPos q ∨ binade q = -1022 := by
    rcases lt_or_eq_of_le (binade_ge q) with hb | hb
    · exact Or.inl (bottom_le_roundPos hq hb)
    · exact Or.inr hb.symm
  rcases lt_or_eq_of_le htop with hlt | heq
  · have hb : binade (roundPos q) = binade q :=
      binade_eq _ _ hr (binade_ge q) hlo hlt
    have hulp : ulp (roundPos q) = ulp q := by unfold ulp; rw [hb]
    have hdiv : roundPos q / ulp q = (roundEven (q / ulp q) : ℚ) := by
      unfold roundPos
      field_simp
    rw [roundPos_def (roundPos q), hulp, hdiv, roundEven_intCast]
    rfl
  · have hb : binade (roundPos q) = binade q + 1 := by
      apply binade_eq _ _ hr (by have := binade_ge q; omega)
      · left; rw [heq]
      · rw [heq]
        exact zpow_lt_zpow_right₀ (by norm_num) (by omega)
    have hulp : ulp (roundPos q) = 2 ^ (binade q + 1 - 52) := by unfold ulp; rw [hb]
    rw [roundPos_def (roundPos q), hulp]
    have hdiv : roundPos q / 2 ^ (binade q + 1 - 52) = (((2 : ℤ) ^ 52 : ℤ) : ℚ) := by
      rw [heq, ← zpow_sub₀ (by norm_num)]
      have : binade q + 1 - (binade q + 1 - 52) = ((52 : ℕ) : ℤ) := by push_cast; ring
      rw [this, zpow_natCast]
      push_cast
      rfl
    rw [hdiv, roundEven_intCast, heq, Int.cast_pow, Int.cast_ofNat, ← zpow_natCast (2 : ℚ) 52,
      ← zpow_add₀ (by norm_num)]
    congr 1
    push_cast
    ring

theorem fl_idem (q : ℚ) : fl (fl q) = fl q := by
  rcases lt_trichotomy q 0 with hq | hq | hq
  · have hpos : 0 < -q := by linarith
    have h1 : fl q = -roundPos (-q) := by
      unfold fl
      rw [if_neg (by linarith), if_pos hq]
    rcases lt_or_eq_of_le (roundPos_nonneg hpos) with hr | hr
    · rw [h1, fl_neg]
      congr 1
      unfold fl
      rw [if_pos hr]
      exact roundPos_idem hpos hr
    · rw [h1, ← hr]
      simp [fl_zero]
  · rw [hq, fl_zero, fl_zero]
  · have h1 : fl q = roundPos q := by
      unfold fl
      rw [if_pos hq]
    rcases lt_or_eq_of_le (roundPos_nonneg hq) with hr | hr
    · rw [h1]
      unfold fl
      rw [if_pos hr]
      exact roundPos_idem hq hr
    · rw [h1, ← hr, fl_zero]

theorem fl_pos_imp {q : ℚ} (h : 0 < fl q) : 0 < q := by
  by_contra hq
  have hq0 : q ≤ 0 := not_lt.mp hq
  have := fl_mono hq0
  rw [fl_zero] at this
  linarith

theorem fl_nonneg {q : ℚ} (h : 0 ≤ q) : 0 ≤ fl q := by
  have := fl_mono h
  rwa [fl_zero] at this

/-! ## Arithmetic on finite values -/

@[simp] theorem Num.lit_eq (q : ℚ) : Num.lit q = Num.ofRat q := rfl

@[simp] theorem Num.add_fin (a b : ℚ) : Num.add (Num.fin a) (Num.fin b) = Num.ofRat (a + b) := rfl

@[simp] theorem Num.neg_fin (a : ℚ) : Num.neg (Num.fin a) = Num.fin (-a) := rfl

@[simp] theorem Num.sub_fin (a b : ℚ) : Num.sub (Num.fin a) (Num.fin b) = Num.ofRat (a - b) := by
  rw [sub_eq_add_neg]
  rfl

@[simp] theorem Num.mul_fin (a b : ℚ) : Num.mul (Num.fin a) (Num.fin b) = Num.ofRat (a * b) := rfl

@[simp] theorem Num.lt_fin (a b : ℚ) : Num.lt (Num.fin a) (Num.fin b) = decide (a < b) := rfl

@[simp] theorem Num.truthy_fin (a : ℚ) : Num.truthy (Num.fin a) = decide (a ≠ 0) := rfl

/-! ## General facts about the operations -/

theorem update_particles (w : World) :
    (update w).particles =
      (w.particles.filter (fun p => Num.lt (Num.fin 0) p.life)).map
        (stepParticle w.innerWidth w.innerHeight) := by
  unfold update
  simp only []
  split <;> rfl

theorem update_dom (w : World) :
    (update w).dom =
      ((w.particles.filter (fun p => Num.lt (Num.fin 0) p.life)).map
        (stepParticle w.innerWidth w.innerHeight)).foldl writeStyle w.dom := by
  unfold update
  simp only []
  split <;> rfl

theorem update_innerWidth (w : World) : (update w).innerWidth = w.innerWidth := by
  unfold update
  simp only []
  split <;> rfl

theorem update_innerHeight (w : World) : (update w).innerHeight = w.innerHeight := by
  unfold update
  simp only []
  split <;> rfl

theorem update_container (w : World) : (update w).container = w.container := by
  unfold update
  simp only []
  split <;> rfl

theorem update_rafQueue (w : World) :
    (update w).rafQueue =
      if 0 < (w.particles.filter (fun p => Num.lt (Num.fin 0) p.life)).length
      then w.rafQueue ++ [w.rafNext] else w.rafQueue := by
  unfold update
  simp only [List.length_map, gt_iff_lt]
  split <;> rfl

theorem update_animationId (w : World) :
    (update w).animationId =
      if 0 < (w.particles.filter (fun p => Num.lt (Num.fin 0) p.life)).length
      then some w.rafNext else w.animationId := by
  unfold update
  simp only [List.length_map, gt_iff_lt]
  split <;> rfl

theorem update_rafNext (w : World) :
    (update w).rafNext =
      if 0 < (w.particles.filter (fun p => Num.lt (Num.fin 0) p.life)).length
      then w.rafNext + 1 else w.rafNext := by
  unfold update
  simp only [List.length_map, gt_iff_lt]
  split <;> rfl

theorem update_rafQueue_of_ne_nil (w : World) (h : (update w).particles ≠ []) :
    (update w).rafQueue = w.rafQueue ++ [w.rafNext] ∧ (update w).animationId = some w.rafNext ∧
      (update w).rafNext = w.rafNext + 1 := by
  have hlen : 0 < (w.particles.filter (fun p => Num.lt (Num.fin 0) p.life)).length := by
    rw [update_particles] at h
    have := List.length_pos.mpr h
    simpa using this
  rw [update_rafQueue, update_animationId, update_rafNext, if_pos hlen, if_pos hlen, if_pos hlen]
  exact ⟨rfl, rfl, rfl⟩

theorem stepParticle_life (W H : Num) (p : Particle) :
    (stepParticle W H p).life = decay p.life := rfl

theorem stepParticle_element (W H : Num) (p : Particle) :
    (stepParticle W H p).element = p.element := rfl

theorem createParticle_particles (w : World) (x y : Option Num) (o : Options) (r : Draws) :
    (createParticle w x y o r).2.particles = w.particles ++ [(createParticle w x y o r).1] := rfl

theorem createParticle_dom (w : World) (x y : Option Num) (o : Options) (r : Draws) :
    (createParticle w x y o r).2.dom = w.dom ++
      [{ className := "particle"
         width := (createParticle w x y o r).1.size
         height := (createParticle w x y o r).1.size
         color := (createParticle w x y o r).1.color
         left := (createParticle w x y o r).1.x
         top := (createParticle w x y o r).1.y
         opacity := (createParticle w x y o r).1.life
         transform := none }] := rfl

theorem createParticle_container (w : World) (x y : Option Num) (o : Options) (r : Draws) :
    (createParticle w x y o r).2.container = w.container ++ [w.dom.length] := rfl

theorem createParticle_rafQueue (w : World) (x y : Option Num) (o : Options) (r : Draws) :
    (createParticle w x y o r).2.rafQueue = w.rafQueue := rfl

theorem createParticle_rafNext (w : World) (x y : Option Num) (o : Options) (r : Draws) :
    (createParticle w x y o r).2.rafNext = w.rafNext := rfl

theorem createParticle_animationId (w : World) (x y : Option Num) (o : Options) (r : Draws) :
    (createParticle w x y o r).2.animationId = w.animationId := rfl

theorem createParticle_innerWidth (w : World) (x y : Option Num) (o : Options) (r : Draws) :
    (createParticle w x y o r).2.innerWidth = w.innerWidth := rfl

theorem createParticle_innerHeight (w : World) (x y : Option Num) (o : Options) (r : Draws) :
    (createParticle w x y o r).2.innerHeight = w.innerHeight := rfl

theorem createParticle_fst (w : World) (x y : Option Num) (o : Options) (r : Draws) :
    (createParticle w x y o r).1 =
      { x := numOr x (Num.mul r.rx w.innerWidth)
        y := numOr y (Num.mul r.ry w.innerHeight)
        vx := definedOr o.vx (Num.mul (Num.sub r.rvx (Num.lit 0.5)) (Num.lit 4))
        vy := definedOr o.vy (Num.mul (Num.sub r.rvy (Num.lit 0.5)) (Num.lit 4))
        size := numOr o.size (Num.add (Num.mul r.rsize (Num.lit 4)) (Num.lit 2))
        color := strOr o.color (pickColor r.rcolor)
        life := numOr o.life (Num.lit 1)
        maxLife := numOr o.life (Num.lit 1)
        gravity := definedOr o.gravity (Num.lit 0.05)
        element := w.dom.length } := rfl

theorem createParticle_life (w : World) (x y : Option Num) (o : Options) (r : Draws) :
    (createParticle w x y o r).1.life = numOr o.life (Num.lit 1) := rfl

theorem clear_particles (w : World) : (clear w).particles = [] := by
  unfold clear
  simp only []
  split
  · split <;> rfl
  · rfl

theorem clear_container (w : World) :
    (clear w).container =
      w.particles.foldl (fun c p => c.filter (fun i => decide (i ≠ p.element))) w.container := by
  unfold clear
  simp only []
  split
  · split <;> rfl
  · rfl

theorem clear_rafQueue (w : World) :
    (clear w).rafQueue =
      match w.animationId with
      | some id => if id ≠ 0 then w.rafQueue.filter (fun h => decide (h ≠ id)) else w.rafQueue
      | none => w.rafQueue := by
  unfold clear
  simp only []
  split
  · split <;> rfl
  · rfl

theorem emit_eq (w : World) (x y : Option Num) (count : Option Nat) (options : Option Options)
    (rs : Nat → Draws) :
    emit w x y count options rs =
      update (emitLoop x y (options.getD Options.empty) rs (count.getD 5) w) := rfl

theorem emitLoop_zero (x y : Option Num) (o : Options) (rs : Nat → Draws) (w : World) :
    emitLoop x y o rs 0 w = w := rfl

theorem emitLoop_succ (x y : Option Num) (o : Options) (rs : Nat → Draws) (n : Nat) (w : World) :
    emitLoop x y o rs (n + 1) w = (createParticle (emitLoop x y o rs n w) x y o (rs n)).2 := rfl

theorem emitLoop_particles (x y : Option Num) (o : Options) (rs : Nat → Draws) (n : Nat)
    (w : World) :
    ∃ l : List Particle, l.length = n ∧ (∀ p ∈ l, p.life = numOr o.life (Num.lit 1)) ∧
      (emitLoop x y o rs n w).particles = w.particles ++ l := by
  induction n with
  | zero => exact ⟨[], rfl, by simp, by simp [emitLoop]⟩
  | succ n ih =>
    obtain ⟨l, hlen, hlife, hps⟩ := ih
    refine ⟨l ++ [(createParticle (emitLoop x y o rs n w) x y o (rs n)).1], ?_, ?_, ?_⟩
    · simp [hlen]
    · intro p hp
      rcases List.mem_append.mp hp with h | h
      · exact hlife p h
      · rw [List.mem_singleton.mp h]; rfl
    · show (createParticle (emitLoop x y o rs n w) x y o (rs n)).2.particles = _
      rw [createParticle_particles, hps, List.append_assoc]

theorem emitLoop_rafQueue (x y : Option Num) (o : Options) (rs : Nat → Draws) (n : Nat)
    (w : World) :
    (emitLoop x y o rs n w).rafQueue = w.rafQueue ∧ (emitLoop x y o rs n w).rafNext = w.rafNext ∧
      (emitLoop x y o rs n w).animationId = w.animationId := by
  induction n with
  | zero => exact ⟨rfl, rfl, rfl⟩
  | succ n ih => exact ih

theorem mem_update_of_live (w : World) (p : Particle) (hp : p ∈ w.particles)
    (hl : Num.lt (Num.fin 0) p.life = true) :
    stepParticle w.innerWidth w.innerHeight p ∈ (update w).particles := by
  rw [update_particles]
  exact List.mem_map.mpr ⟨p, List.mem_filter.mpr ⟨hp, hl⟩, rfl⟩

theorem emit_particles_length (w : World) (x y : Option Num) (count : Option Nat)
    (options : Option Options) (rs : Nat → Draws)
    (hw : ∀ p ∈ w.particles, Num.lt (Num.fin 0) p.life = true)
    (ho : Num.lt (Num.fin 0) (numOr (options.getD Options.empty).life (Num.lit 1)) = true) :
    (emit w x y count options rs).particles.length = w.particles.length + count.getD 5 := by
  obtain ⟨l, hlen, hlife, hps⟩ :=
    emitLoop_particles x y (options.getD Options.empty) rs (count.getD 5) w
  unfold emit
  rw [update_particles, List.length_map, hps]
  have hall : ∀ p ∈ w.particles ++ l,
      (fun p : Particle => Num.lt (Num.fin 0) p.life) p = true := by
    intro p hp
    rcases List.mem_append.mp hp with h | h
    · exact hw p h
    · simpa [hlife p h] using ho
  rw [List.filter_eq_self.mpr hall, List.length_append, hlen]

/-! ## Binary64 values of the numbers in the scenarios

Each lemma gives the binary64 rounding of one real number, certified by the exponent of its
binade and the integer significand of the result. -/

@[simp] theorem ofRat_val1 : Num.ofRat 1920 = Num.fin 1920 := by
  apply ofRat_eq_of_pos _ _ 10 8444249301319680 <;> norm_num

@[simp] theorem ofRat_val2 : Num.ofRat 1080 = Num.fin 1080 := by
  apply ofRat_eq_of_pos _ _ 10 4749890231992320 <;> norm_num

@[simp] theorem ofRat_val3 : Num.ofRat 100 = Num.fin 100 := by
  apply ofRat_eq_of_pos _ _ 6 7036874417766400 <;> norm_num

@[simp] theorem ofRat_val4 : Num.ofRat 3 = Num.fin 3 := by
  apply ofRat_eq_of_pos _ _ 1 6755399441055744 <;> norm_num

@[simp] theorem ofRat_val5 : Num.ofRat 1 = Num.fin 1 := by
  apply ofRat_eq_of_pos _ _ 0 4503599627370496 <;> norm_num

@[simp] theorem ofRat_val6 : Num.ofRat (1 / 10) = Num.fin (3602879701896397 / 36028797018963968) := by
  apply ofRat_eq_of_pos _ _ (-4) 7205759403792794 <;> norm_num

@[simp] theorem ofRat_val7 : Num.ofRat (1 / 2) = Num.fin (1 / 2) := by
  apply ofRat_eq_of_pos _ _ (-1) 4503599627370496 <;> norm_num

@[simp] theorem ofRat_val8 : Num.ofRat 960 = Num.fin 960 := by
  apply ofRat_eq_of_pos _ _ 9 8444249301319680 <;> norm_num

@[simp] theorem ofRat_val9 : Num.ofRat 540 = Num.fin 540 := by
  apply ofRat_eq_of_pos _ _ 9 4749890231992320 <;> norm_num

@[simp] theorem ofRat_val10 : Num.ofRat 4 = Num.fin 4 := by
  apply ofRat_eq_of_pos _ _ 2 4503599627370496 <;> norm_num

@[simp] theorem ofRat_val11 : Num.ofRat 2 = Num.fin 2 := by
  apply ofRat_eq_of_pos _ _ 1 4503599627370496 <;> norm_num

@[simp] theorem ofRat_val12 : Num.ofRat (1 / 20) = Num.fin (3602879701896397 / 72057594037927936) := by
  apply ofRat_eq_of_pos _ _ (-5) 7205759403792794 <;> norm_num

@[simp] theorem ofRat_val13 : Num.ofRat (49 / 50) = Num.fin (2206763817411543 / 2251799813685248) := by
  apply ofRat_eq_of_pos _ _ (-1) 8827055269646172 <;> norm_num

@[simp] theorem ofRat_val14 : Num.ofRat (3602879701896397 / 36028797018963968) = Num.fin (3602879701896397 / 36028797018963968) := by
  apply ofRat_eq_of_pos _ _ (-4) 7205759403792794 <;> norm_num

@[simp] theorem ofRat_val15 : Num.ofRat (3606482581598293197 / 36028797018963968) = Num.fin (3521955646092083 / 35184372088832) := by
  apply ofRat_eq_of_pos _ _ 6 7043911292184166 <;> norm_num

@[simp] theorem ofRat_val16 : Num.ofRat (1 / 125) = Num.fin (1152921504606847 / 144115188075855872) := by
  apply ofRat_eq_of_pos _ _ (-7) 4611686018427388 <;> norm_num

@[simp] theorem ofRat_val17 : Num.ofRat (142962266571249025 / 144115188075855872) = Num.fin (1116892707587883 / 1125899906842624) := by
  apply ofRat_eq_of_pos _ _ (-1) 8935141660703064 <;> norm_num

@[simp] theorem ofRat_val18 : Num.ofRat (4 / 5) = Num.fin (3602879701896397 / 4503599627370496) := by
  apply ofRat_eq_of_pos _ _ (-1) 7205759403792794 <;> norm_num

@[simp] theorem ofRat_val19 : Num.ofRat (-(12980742146337070512478121581609 / 162259276829213363391578010288128)) = Num.fin (-(1441151880758559 / 18014398509481984)) := by
  apply ofRat_eq_of_neg _ _ (-4) 5764607523034236 <;> norm_num

@[simp] theorem ofRat_val20 : Num.ofRat 200 = Num.fin 200 := by
  apply ofRat_eq_of_pos _ _ 7 7036874417766400 <;> norm_num

@[simp] theorem ofRat_val21 : Num.ofRat (7040392854975283 / 35184372088832) = Num.fin (7040392854975283 / 35184372088832) := by
  apply ofRat_eq_of_pos _ _ 7 7040392854975283 <;> norm_num

@[simp] theorem ofRat_val22 : Num.ofRat (1001 / 10) = Num.fin (3521955646092083 / 35184372088832) := by
  apply ofRat_eq_of_pos _ _ 6 7043911292184166 <;> norm_num

@[simp] theorem ofRat_val23 : Num.ofRat (124 / 125) = Num.fin (1116892707587883 / 1125899906842624) := by
  apply ofRat_eq_of_pos _ _ (-1) 8935141660703064 <;> norm_num

@[simp] theorem ofRat_val24 : Num.ofRat (2001 / 10) = Num.fin (7040392854975283 / 35184372088832) := by
  apply ofRat_eq_of_pos _ _ 7 7040392854975283 <;> norm_num

@[simp] theorem ofRat_val25 : Num.ofRat (2 / 125) = Num.fin (1152921504606847 / 72057594037927936) := by
  apply ofRat_eq_of_pos _ _ (-6) 4611686018427388 <;> norm_num

@[simp] theorem ofRat_val26 : Num.ofRat (1152921504606847 / 144115188075855872) = Num.fin (1152921504606847 / 144115188075855872) := by
  apply ofRat_eq_of_pos _ _ (-7) 4611686018427388 <;> norm_num

@[simp] theorem ofRat_val27 : Num.ofRat 50 = Num.fin 50 := by
  apply ofRat_eq_of_pos _ _ 5 7036874417766400 <;> norm_num

@[simp] theorem ofRat_val28 : Num.ofRat (1805042730650094797 / 36028797018963968) = Num.fin (7050948166601933 / 140737488355328) := by
  apply ofRat_eq_of_pos _ _ 5 7050948166601933 <;> norm_num

@[simp] theorem ofRat_val29 : Num.ofRat (7950704564631455103424897910571 / 81129638414606681695789005144064) = Num.fin (3530822107858469 / 36028797018963968) := by
  apply ofRat_eq_of_pos _ _ (-4) 7061644215716938 <;> norm_num

@[simp] theorem ofRat_val30 : Num.ofRat (3566850904877433 / 18014398509481984) = Num.fin (3566850904877433 / 18014398509481984) := by
  apply ofRat_eq_of_pos _ _ (-3) 7133701809754866 <;> norm_num

@[simp] theorem ofRat_val31 : Num.ofRat (906088216229924857 / 18014398509481984) = Num.fin (221212943415509 / 4398046511104) := by
  apply ofRat_eq_of_pos _ _ 5 7078814189296288 <;> norm_num

@[simp] theorem ofRat_val32 : Num.ofRat (141809345066642177 / 144115188075855872) = Num.fin (553942754166571 / 562949953421312) := by
  apply ofRat_eq_of_pos _ _ (-1) 8863084066665136 <;> norm_num

@[simp] theorem ofRat_val33 : Num.ofRat (-(12850934724873699699266949308901 / 81129638414606681695789005144064)) = Num.fin (-(5706961447803893 / 36028797018963968)) := by
  apply ofRat_eq_of_neg _ _ (-3) 5706961447803893 <;> norm_num

@[simp] theorem ofRat_val34 : Num.ofRat (7871197518985140486187734409119 / 40564819207303340847894502572032) = Num.fin (6991027773559769 / 36028797018963968) := by
  apply ofRat_eq_of_pos _ _ (-3) 6991027773559769 <;> norm_num

@[simp] theorem ofRat_val35 : Num.ofRat (5296953737728083 / 18014398509481984) = Num.fin (5296953737728083 / 18014398509481984) := by
  apply ofRat_eq_of_pos _ _ (-2) 5296953737728083 <;> norm_num

@[simp] theorem ofRat_val36 : Num.ofRat (911385169967652947 / 18014398509481984) = Num.fin (7120196640372289 / 140737488355328) := by
  apply ofRat_eq_of_pos _ _ 5 7120196640372289 <;> norm_num

@[simp] theorem ofRat_val37 : Num.ofRat (140656423562035329 / 144115188075855872) = Num.fin (1098878309078401 / 1125899906842624) := by
  apply ofRat_eq_of_pos _ _ (-1) 8791026472627208 <;> norm_num

@[simp] theorem ofRat_val38 : Num.ofRat (-(19084287103544761537981423416951 / 81129638414606681695789005144064)) = Num.fin (-(8475125980364933 / 36028797018963968)) := by
  apply ofRat_eq_of_neg _ _ (-3) 8475125980364933 <;> norm_num

@[simp] theorem ofRat_val39 : Num.ofRat (11689125850921165581258639462069 / 40564819207303340847894502572032) = Num.fin (5191014662973521 / 18014398509481984) := by
  apply ofRat_eq_of_pos _ _ (-2) 5191014662973521 <;> norm_num

@[simp] theorem ofRat_val40 : Num.ofRat (13984909027843439 / 36028797018963968) = Num.fin (874056814240215 / 2251799813685248) := by
  apply ofRat_eq_of_pos_tie _ _ (-2) 6992454513921720 <;> norm_num

@[simp] theorem ofRat_val41 : Num.ofRat (114797203060196839 / 2251799813685248) = Num.fin (3587412595631151 / 70368744177664) := by
  apply ofRat_eq_of_pos _ _ 5 7174825191262302 <;> norm_num

@[simp] theorem ofRat_val42 : Num.ofRat (139503502057428481 / 144115188075855872) = Num.fin (272467777455915 / 281474976710656) := by
  apply ofRat_eq_of_pos _ _ (-1) 8718968878589280 <;> norm_num

@[simp] theorem ofRat_val43 : Num.ofRat (-(3149121554330300267490201005355 / 10141204801825835211973625643008)) = Num.fin (-(174811362848043 / 562949953421312)) := by
  apply ofRat_eq_of_neg _ _ (-2) 5593963611137376 <;> norm_num

@[simp] theorem ofRat_val44 : Num.ofRat (123 / 125) = Num.fin (553942754166571 / 562949953421312) := by
  apply ofRat_eq_of_pos _ _ (-1) 8863084066665136 <;> norm_num

@[simp] theorem ofRat_val45 : Num.ofRat (122 / 125) = Num.fin (1098878309078401 / 1125899906842624) := by
  apply ofRat_eq_of_pos _ _ (-1) 8791026472627208 <;> norm_num

@[simp] theorem ofRat_val46 : Num.ofRat (121 / 125) = Num.fin (272467777455915 / 281474976710656) := by
  apply ofRat_eq_of_pos _ _ (-1) 8718968878589280 <;> norm_num

@[simp] theorem ofRat_val47 : Num.ofRat 10 = Num.fin 10 := by
  apply ofRat_eq_of_pos _ _ 3 5629499534213120 <;> norm_num

@[simp] theorem ofRat_val48 : Num.ofRat 11 = Num.fin 11 := by
  apply ofRat_eq_of_pos _ _ 3 6192449487634432 <;> norm_num

@[simp] theorem ofRat_val49 : Num.ofRat 5 = Num.fin 5 := by
  apply ofRat_eq_of_pos _ _ 2 5629499534213120 <;> norm_num

@[simp] theorem ofRat_val50 : Num.ofRat (2206763817411543 / 2251799813685248) = Num.fin (2206763817411543 / 2251799813685248) := by
  apply ofRat_eq_of_pos _ _ (-1) 8827055269646172 <;> norm_num

@[simp] theorem ofRat_val51 : Num.ofRat (26976561767949271 / 2251799813685248) = Num.fin (3372070220993659 / 281474976710656) := by
  apply ofRat_eq_of_pos _ _ 3 6744140441987318 <;> norm_num

@[simp] theorem ofRat_val52 : Num.ofRat (-(7950704564631455103424897910571 / 10141204801825835211973625643008)) = Num.fin (-(3530822107858469 / 4503599627370496)) := by
  apply ofRat_eq_of_neg _ _ (-1) 7061644215716938 <;> norm_num

@[simp] theorem ofRat_val53 : Num.ofRat (98 / 125) = Num.fin (3530822107858469 / 4503599627370496) := by
  apply ofRat_eq_of_pos _ _ (-1) 7061644215716938 <;> norm_num

@[simp] theorem ofRat_val54 : Num.ofRat (3602879701896397 / 4503599627370496) = Num.fin (3602879701896397 / 4503599627370496) := by
  apply ofRat_eq_of_pos _ _ (-1) 7205759403792794 <;> norm_num

@[simp] theorem ofRat_val55 : Num.ofRat (7950704564631455103424897910571 / 10141204801825835211973625643008) = Num.fin (3530822107858469 / 4503599627370496) := by
  apply ofRat_eq_of_pos _ _ (-1) 7061644215716938 <;> norm_num

@[simp] theorem ofRat_val56 : Num.ofRat (2401 / 1000) = Num.fin (675821419082285 / 281474976710656) := by
  apply ofRat_eq_of_pos _ _ 1 5406571352658280 <;> norm_num

@[simp] theorem ofRat_val57 : Num.ofRat (49 / 20) = Num.fin (2758454771764429 / 1125899906842624) := by
  apply ofRat_eq_of_pos _ _ 1 5516909543528858 <;> norm_num

@[simp] theorem ofRat_val58 : Num.ofRat (-(6087258182295957917001741403947 / 2535301200456458802993406410752)) = Num.fin (-(5406571352658281 / 2251799813685248)) := by
  apply ofRat_eq_of_neg _ _ 1 5406571352658281 <;> norm_num

@[simp] theorem ofRat_val59 : Num.ofRat (-(1 / 2251799813685248)) = Num.fin (-(1 / 2251799813685248)) := by
  apply ofRat_eq_of_neg _ _ (-51) 4503599627370496 <;> norm_num

@[simp] theorem ofRat_val60 : Num.ofRat (19479226183347067345262806113557 / 10141204801825835211973625643008) = Num.fin (4325257082126625 / 2251799813685248) := by
  apply ofRat_eq_of_pos _ _ 0 8650514164253250 <;> norm_num

@[simp] theorem ofRat_val61 : Num.ofRat (2401 / 1250) = Num.fin (8650514164253249 / 4503599627370496) := by
  apply ofRat_eq_of_pos _ _ 0 8650514164253249 <;> norm_num

@[simp] theorem ofRat_val62 : Num.ofRat 300 = Num.fin 300 := by
  apply ofRat_eq_of_pos _ _ 8 5277655813324800 <;> norm_num

@[simp] theorem ofRat_val63 : Num.ofRat (3602879701896397 / 72057594037927936) = Num.fin (3602879701896397 / 72057594037927936) := by
  apply ofRat_eq_of_pos _ _ (-5) 7205759403792794 <;> norm_num

@[simp] theorem ofRat_val64 : Num.ofRat (3606482581598293197 / 72057594037927936) = Num.fin (3521955646092083 / 70368744177664) := by
  apply ofRat_eq_of_pos _ _ 5 7043911292184166 <;> norm_num

@[simp] theorem ofRat_val65 : Num.ofRat (-(12980742146337070512478121581609 / 324518553658426726783156020576256)) = Num.fin (-(1441151880758559 / 36028797018963968)) := by
  apply ofRat_eq_of_neg _ _ (-5) 5764607523034236 <;> norm_num

/-! ## Rounded results -/

@[simp] theorem Num.toRat_fin (q : ℚ) : Num.toRat (Num.fin q) = q := rfl

theorem ofRat_eq_fin_iff (q r : ℚ) :
    Num.ofRat q = Num.fin r ↔ fl q = r ∧ -2 ^ 1024 < fl q ∧ fl q < 2 ^ 1024 := by
  unfold Num.ofRat
  constructor
  · intro h
    split at h
    · exact absurd h (by simp)
    · split at h
      · exact absurd h (by simp)
      · rename_i h1 h2
        exact ⟨Num.fin.inj h, not_le.mp h2, not_le.mp h1⟩
  · rintro ⟨h, h1, h2⟩
    rw [if_neg (not_le.mpr h2), if_neg (not_le.mpr h1), h]

theorem ofRat_isDouble (q : ℚ) : (Num.ofRat q).IsDouble := by
  rcases h : Num.ofRat q with r | _ | _ | _
  · obtain ⟨h0, h1, h2⟩ := (ofRat_eq_fin_iff q r).mp h
    show Num.ofRat r = Num.fin r
    rw [ofRat_eq_fin_iff, ← h0, fl_idem]
    exact ⟨rfl, h1, h2⟩
  · trivial
  · trivial
  · trivial

theorem ofRat_neg (q : ℚ) : Num.ofRat (-q) = Num.neg (Num.ofRat q) := by
  unfold Num.ofRat
  rw [fl_neg]
  have hbig : (0 : ℚ) < 2 ^ 1024 := by positivity
  by_cases h1 : 2 ^ 1024 ≤ fl q
  · rw [if_pos h1, if_neg (by linarith), if_pos (by linarith)]
    rfl
  · rw [if_neg h1]
    by_cases h2 : fl q ≤ -2 ^ 1024
    · rw [if_pos h2, if_pos (by linarith)]
      rfl
    · rw [if_neg h2, if_neg (by linarith), if_neg (by linarith)]
      rfl

/-- A rounded result that is greater than zero comes from a positive real. -/
theorem ofRat_pos_imp {q : ℚ} (h : Num.lt (Num.fin 0) (Num.ofRat q) = true) : 0 < q := by
  have hbig : (0 : ℚ) < 2 ^ 1024 := by positivity
  unfold Num.ofRat at h
  split at h
  · rename_i h1
    exact fl_pos_imp (by linarith)
  · split at h
    · exact absurd h (by simp [Num.lt])
    · have : 0 < fl q := by simpa [Num.lt] using h
      exact fl_pos_imp this

/-- Rounding the sum of a binary64 value and a non-negative real does not go below the value. -/
theorem ofRat_add_nonneg {a v : ℚ} (ha : Num.ofRat a = Num.fin a) (hv : 0 ≤ v) :
    Num.ofRat (a + v) = Num.posInf ∨ ∃ b, Num.ofRat (a + v) = Num.fin b ∧ a ≤ b := by
  obtain ⟨ha0, ha1, -⟩ := (ofRat_eq_fin_iff a a).mp ha
  have hmono : a ≤ fl (a + v) := by
    have := fl_mono (show a ≤ a + v by linarith)
    rwa [ha0] at this
  unfold Num.ofRat
  by_cases h1 : 2 ^ 1024 ≤ fl (a + v)
  · left
    rw [if_pos h1]
  · right
    rw [ha0] at ha1
    rw [if_neg h1, if_neg (by linarith)]
    exact ⟨_, rfl, hmono⟩

/-- Rounding the difference of a binary64 value and a non-negative real does not exceed the
value. -/
theorem ofRat_sub_nonneg {a v : ℚ} (ha : Num.ofRat a = Num.fin a) (hv : 0 ≤ v) :
    Num.ofRat (a - v) = Num.negInf ∨ ∃ b, Num.ofRat (a - v) = Num.fin b ∧ b ≤ a := by
  obtain ⟨ha0, -, ha2⟩ := (ofRat_eq_fin_iff a a).mp ha
  have hmono : fl (a - v) ≤ a := by
    have := fl_mono (show a - v ≤ a by linarith)
    rwa [ha0] at this
  rw [ha0] at ha2
  unfold Num.ofRat
  rw [if_neg (by linarith)]
  by_cases h1 : fl (a - v) ≤ -2 ^ 1024
  · left
    rw [if_pos h1]
  · right
    rw [if_neg h1]
    exact ⟨_, rfl, hmono⟩

/-- A positive binary64 value times a constant in `(1/2, 1)` rounds to a positive binary64
value that is not larger. -/
theorem ofRat_mul_shrink {v c : ℚ} (hv : Num.ofRat v = Num.fin v) (hpos : 0 < v)
    (hc1 : 1 / 2 < c) (hc2 : c < 1) :
    ∃ v1, Num.ofRat (v * c) = Num.fin v1 ∧ 0 < v1 ∧ v1 ≤ v ∧ Num.ofRat v1 = Num.fin v1 := by
  obtain ⟨hv0, -, hv2⟩ := (ofRat_eq_fin_iff v v).mp hv
  rw [hv0] at hv2
  have hbig : (0 : ℚ) < 2 ^ 1024 := by positivity
  have hround : roundPos v = v := by
    have := hv0
    unfold fl at this
    rwa [if_pos hpos] at this
  have hmin : (2 : ℚ) ^ (-1074 : ℤ) ≤ v := by
    have := roundPos_ge_of_pos (q := v) (by rw [hround]; exact hpos)
    rwa [hround] at this
  have hprod : 0 < v * c := by positivity
  have hhalf : (2 : ℚ) ^ (-1075 : ℤ) < v * c := by
    have h3 : (2 : ℚ) ^ (-1074 : ℤ) = 2 * 2 ^ (-1075 : ℤ) := by
      rw [show (-1074 : ℤ) = -1075 + 1 by norm_num, zpow_add_one₀ (by norm_num)]
      ring
    have h4 : (0 : ℚ) < 2 ^ (-1075 : ℤ) := by positivity
    nlinarith
  have hfl : fl (v * c) = roundPos (v * c) := by
    unfold fl
    rw [if_pos hprod]
  have h1 : 0 < fl (v * c) := by
    rw [hfl]
    exact roundPos_pos hprod hhalf
  have h2 : fl (v * c) ≤ v := by
    have := fl_mono (show v * c ≤ v by nlinarith)
    rwa [hv0] at this
  have hres : Num.ofRat (v * c) = Num.fin (fl (v * c)) :=
    (ofRat_eq_fin_iff _ _).mpr ⟨rfl, by linarith, by linarith⟩
  refine ⟨fl (v * c), hres, h1, h2, ?_⟩
  have := ofRat_isDouble (v * c)
  rw [hres] at this
  exact this

theorem Num.neg_neg (a : Num) : Num.neg (Num.neg a) = a := by
  cases a <;> simp [Num.neg]

theorem Num.mul_neg_fin (a : Num) (b : ℚ) :
    Num.mul a (Num.fin (-b)) = Num.neg (Num.mul a (Num.fin b)) := by
  cases a with
  | fin a =>
    show Num.ofRat (a * -b) = Num.neg (Num.ofRat (a * b))
    rw [mul_neg, ofRat_neg]
  | posInf =>
    show Num.mulInf true (Num.fin (-b)) = Num.neg (Num.mulInf true (Num.fin b))
    unfold Num.mulInf
    rcases lt_trichotomy b 0 with h | h | h
    · have h1 : ¬ (0 < b) := by linarith
      have h2 : (0 : ℚ) < -b := by linarith
      simp [h.ne, h1, h2, Num.neg]
    · simp [h, Num.neg]
    · have h1 : ¬ ((0 : ℚ) < -b) := by linarith
      simp [h.ne', h1, h, Num.neg]
  | negInf =>
    show Num.mulInf false (Num.fin (-b)) = Num.neg (Num.mulInf false (Num.fin b))
    unfold Num.mulInf
    rcases lt_trichotomy b 0 with h | h | h
    · have h1 : ¬ (0 < b) := by linarith
      have h2 : (0 : ℚ) < -b := by linarith
      simp [h.ne, h1, h2, Num.neg]
    · simp [h, Num.neg]
    · have h1 : ¬ ((0 : ℚ) < -b) := by linarith
      simp [h.ne', h1, h, Num.neg]
  | nan => rfl

/-- The per-frame decay leaves a life that is greater than zero only when it was so before. -/
theorem pos_of_decay_pos (l : Num) (h : Num.lt (Num.fin 0) (decay l) = true) :
    Num.lt (Num.fin 0) l = true := by
  have hc : Num.lit 0.008 = Num.fin (1152921504606847 / 144115188075855872) := by norm_num
  unfold decay at h
  rw [hc] at h
  cases l with
  | fin a =>
    rw [Num.sub_fin] at h
    have := ofRat_pos_imp h
    have ha : 0 < a := by
      have hc0 : (0 : ℚ) < 1152921504606847 / 144115188075855872 := by norm_num
      linarith
    simpa [Num.lt] using ha
  | posInf => rfl
  | negInf => exact absurd h (by simp [Num.sub, Num.neg, Num.add, Num.lt])
  | nan => exact absurd h (by simp [Num.sub, Num.neg, Num.add, Num.lt])

/-- The per-frame decay never increases a binary64 life, and its result is a binary64 value. -/
theorem decay_not_gt (l : Num) (hl : l.IsDouble) :
    Num.lt l (decay l) = false ∧ (decay l).IsDouble := by
  have hc : Num.lit 0.008 = Num.fin (1152921504606847 / 144115188075855872) := by norm_num
  unfold decay
  rw [hc]
  cases l with
  | fin a =>
    rw [Num.sub_fin]
    refine ⟨?_, ofRat_isDouble _⟩
    rcases ofRat_sub_nonneg (a := a) (v := 1152921504606847 / 144115188075855872) hl
      (by norm_num) with h | ⟨b, h, hb⟩
    · rw [h]
      rfl
    · rw [h]
      simpa [Num.lt] using hb
  | posInf => exact ⟨rfl, trivial⟩
  | negInf => exact ⟨rfl, trivial⟩
  | nan => exact ⟨rfl, trivial⟩

/-! ## Style writes -/

theorem length_modifyAt (f : Element → Element) (i : Nat) (l : List Element) :
    (modifyAt f i l).length = l.length := by
  induction l generalizing i with
  | nil => cases i <;> rfl
  | cons e es ih =>
    cases i with
    | zero => rfl
    | succ i => simp [modifyAt, ih]

theorem getElem?_modifyAt (f : Element → Element) (i j : Nat) (l : List Element) :
    (modifyAt f i l)[j]? = if j = i then (l[j]?).map f else l[j]? := by
  induction l generalizing i j with
  | nil => cases i <;> simp [modifyAt]
  | cons e es ih =>
    cases i with
    | zero =>
      cases j with
      | zero => simp [modifyAt]
      | succ j => simp [modifyAt]
    | succ i =>
      cases j with
      | zero => simp [modifyAt]
      | succ j => simp [modifyAt, ih]

theorem length_foldl_writeStyle (ps : List Particle) (d : List Element) :
    (ps.foldl writeStyle d).length = d.length := by
  induction ps generalizing d with
  | nil => rfl
  | cons p ps ih => rw [List.foldl_cons, ih, writeStyle, length_modifyAt]

theorem getElem?_foldl_writeStyle_of_ne (ps : List Particle) (d : List Element) (i : Nat)
    (h : ∀ p ∈ ps, p.element ≠ i) : (ps.foldl writeStyle d)[i]? = d[i]? := by
  induction ps generalizing d with
  | nil => rfl
  | cons p ps ih =>
    rw [List.foldl_cons, ih _ (fun q hq => h q (List.mem_cons_of_mem _ hq)), writeStyle,
      getElem?_modifyAt, if_neg (fun hi => h p (List.mem_cons_self _ _) hi.symm)]

/-- After the style writes of one `update()`, the element of each advanced particle is the
old element restyled with that particle's position and life. -/
theorem getElem?_foldl_writeStyle (ps : List Particle) (d : List Element) (q : Particle)
    (hnd : (ps.map Particle.element).Nodup) (hq : q ∈ ps) :
    (ps.foldl writeStyle d)[q.element]? = (d[q.element]?).map (restyle q) := by
  induction ps generalizing d with
  | nil => exact absurd hq (List.not_mem_nil _)
  | cons p ps ih =>
    rw [List.map_cons, List.nodup_cons] at hnd
    obtain ⟨hnot, hnd'⟩ := hnd
    rw [List.foldl_cons]
    by_cases hqp : q ∈ ps
    · have hne : q.element ≠ p.element := by
        intro he
        exact hnot (he ▸ List.mem_map_of_mem Particle.element hqp)
      rw [ih _ hnd' hqp, writeStyle, getElem?_modifyAt, if_neg hne]
    · have hqeq : q = p := by
        rcases List.mem_cons.mp hq with h | h
        · exact h
        · exact absurd h hqp
      subst hqeq
      rw [getElem?_foldl_writeStyle_of_ne ps _ q.element, writeStyle, getElem?_modifyAt,
        if_pos rfl]
      intro p' hp' he
      exact hnot (he ▸ List.mem_map_of_mem Particle.element hp')

theorem map_element_update (w : World) :
    (update w).particles.map Particle.element =
      (w.particles.filter (fun p => Num.lt (Num.fin 0) p.life)).map Particle.element := by
  rw [update_particles, List.map_map]
  rfl

theorem handlesOk_update (w : World) (h : HandlesOk w) : HandlesOk (update w) := by
  obtain ⟨hnd, hlt⟩ := h
  constructor
  · rw [map_element_update]
    exact hnd.sublist (List.Sublist.map _ (List.filter_sublist _))
  · intro q hq
    rw [update_particles] at hq
    obtain ⟨p, hp, rfl⟩ := List.mem_map.mp hq
    rw [update_dom, length_foldl_writeStyle]
    exact hlt p (List.mem_filter.mp hp).1

theorem handlesOk_init (W H : Num) : HandlesOk (init W H) :=
  ⟨List.nodup_nil, fun _ hp => absurd hp (List.not_mem_nil _)⟩

theorem handlesOk_createParticle (w : World) (x y : Option Num) (o : Options) (r : Draws)
    (h : HandlesOk w) : HandlesOk (createParticle w x y o r).2 := by
  obtain ⟨hnd, hlt⟩ := h
  constructor
  · rw [createParticle_particles, List.map_append, List.nodup_append]
    refine ⟨hnd, List.nodup_singleton _, ?_⟩
    intro i hi hj
    obtain ⟨p, hp, rfl⟩ := List.mem_map.mp hi
    have h1 := hlt p hp
    have h2 : p.element = w.dom.length := by simpa [createParticle_fst] using hj
    omega
  · intro p hp
    rw [createParticle_dom, List.length_append, List.length_singleton]
    rw [createParticle_particles] at hp
    rcases List.mem_append.mp hp with h | h
    · have := hlt p h
      omega
    · rw [List.mem_singleton.mp h, createParticle_fst]
      exact Nat.lt_succ_self _

/-- One `update()` writes to the element of every particle it keeps that particle's new
position (as the transform) and new life (as the opacity). -/
theorem update_restyles (w : World) (h : HandlesOk w) (q : Particle)
    (hq : q ∈ (update w).particles) :
    ∃ e, w.dom[q.element]? = some e ∧ (update w).dom[q.element]? = some (restyle q e) := by
  have hok := handlesOk_update w h
  have hlen : q.element < w.dom.length := by
    have := hok.2 q hq
    rwa [update_dom, length_foldl_writeStyle] at this
  refine ⟨w.dom[q.element], List.getElem?_eq_getElem hlen, ?_⟩
  have hnd : (((w.particles.filter (fun p => Num.lt (Num.fin 0) p.life)).map
      (stepParticle w.innerWidth w.innerHeight)).map Particle.element).Nodup := by
    have := hok.1
    rwa [update_particles] at this
  rw [update_particles] at hq
  rw [update_dom, getElem?_foldl_writeStyle _ _ q hnd hq, List.getElem?_eq_getElem hlen]
  rfl

theorem iterate_update_viewport (w : World) (n : Nat) :
    (update^[n] w).innerWidth = w.innerWidth ∧ (update^[n] w).innerHeight = w.innerHeight := by
  induction n with
  | zero => exact ⟨rfl, rfl⟩
  | succ n ih =>
    rw [Function.iterate_succ_apply', update_innerWidth, update_innerHeight]
    exact ih

theorem iterate_stepParticle_life (W H : Num) (n : Nat) (p : Particle) :
    ((stepParticle W H)^[n] p).life = decay^[n] p.life := by
  induction n with
  | zero => rfl
  | succ n ih =>
    rw [Function.iterate_succ_apply', Function.iterate_succ_apply', stepParticle_life, ih]

theorem iterate_stepParticle_element (W H : Num) (n : Nat) (p : Particle) :
    ((stepParticle W H)^[n] p).element = p.element := by
  induction n with
  | zero => rfl
  | succ n ih => rw [Function.iterate_succ_apply', stepParticle_element, ih]

theorem iterate_update_particles (w : World) (N : Nat) :
    (update^[N + 1] w).particles =
      (w.particles.filter (fun p => Num.lt (Num.fin 0) (decay^[N] p.life))).map
        ((stepParticle w.innerWidth w.innerHeight)^[N + 1]) := by
  induction N with
  | zero =>
    rw [Function.iterate_one, Function.iterate_one, update_particles]
    rfl
  | succ N ih =>
    rw [Function.iterate_succ_apply', update_particles, ih, (iterate_update_viewport w (N + 1)).1,
      (iterate_update_viewport w (N + 1)).2, List.filter_map, List.filter_filter, List.map_map,
      ← Function.iterate_succ']
    congr 1
    apply List.filter_congr
    intro p _
    simp only [Function.comp_apply, iterate_stepParticle_life]
    cases h : Num.lt (Num.fin 0) (decay^[N + 1] p.life) with
    | false => rfl
    | true =>
      rw [Function.iterate_succ_apply'] at h
      rw [pos_of_decay_pos _ h]
      rfl

theorem iterate_decay_isDouble (l : Num) (hl : l.IsDouble) (n : Nat) :
    (decay^[n] l).IsDouble := by
  induction n with
  | zero => exact hl
  | succ n ih =>
    rw [Function.iterate_succ_apply']
    exact (decay_not_gt _ ih).2

/-! ## The claims -/

/-- C1 (code evaluated at the failing input): after `createParticle(100, 100, {..., life:
0.008})` and two `update()` calls the particle has left the live collection, but its
element, index `0`, is still a child of the container: `update()` never removes it. -/
theorem retired_handle_stays_in_container :
    shortWorld.particles.map Particle.element = [0] ∧ shortWorld.container = [0] ∧
      (update (update shortWorld)).particles = [] ∧
      (update (update shortWorld)).container = [0] := by
  refine ⟨?_, ?_, ?_, ?_⟩
  · simp [shortWorld, createParticle, init]
  · simp [shortWorld, createParticle, init]
  · norm_num [update_particles, update_innerWidth, update_innerHeight, shortWorld,
      createParticle_particles, createParticle_fst, createParticle_innerWidth,
      createParticle_innerHeight, init, shortOptions, numOr, definedOr, strOr, stepParticle,
      halfDraws]
  · rw [update_container, update_container]
    simp [shortWorld, createParticle, init]

/-- C2 as stated fails: a particle created with life `0.008` has `0.008 - 0.008 * 1 <= 0`
after one `update()`, yet it is still in the live collection, with life `0` (which is not
greater than zero), and `0` was written to the opacity of its element. -/
theorem expired_particle_still_live_counterexample :
    shortWorld.particles.map Particle.life = [Num.lit 0.008] ∧ (0.008 : ℚ) - 0.008 * 1 ≤ 0 ∧
      (update shortWorld).particles.map Particle.life = [Num.lit 0] ∧
      Num.lt (Num.fin 0) (Num.lit 0) = false ∧
      (update shortWorld).dom.map Element.opacity = [Num.lit 0] := by
  refine ⟨?_, by norm_num, ?_, by norm_num, ?_⟩ <;>
    norm_num [update_particles, update_dom, shortWorld, createParticle_particles,
      createParticle_dom, createParticle_fst, createParticle_innerWidth,
      createParticle_innerHeight, init, shortOptions, numOr, definedOr, strOr, stepParticle,
      writeStyle, restyle, modifyAt, halfDraws]

/-- C2 (amended): write `decay` for the rounded per-frame step `life - 0.008`. After `N + 1`
calls of `update()` the live collection holds exactly the particles of the start state whose
life is still greater than zero after `N` decay steps, each advanced `N + 1` times; a
particle advanced `n` times has the life `decay` applied `n` times and the same element.
A decay step never increases a binary64 life and yields a binary64 value again. Every
`update()` writes to the element of each particle it keeps that particle's new position
and, as opacity, its new life, whether or not that life is still greater than zero. -/
theorem life_after_updates (w : World) (N : Nat) :
    (update^[N + 1] w).particles =
      (w.particles.filter (fun p => Num.lt (Num.fin 0) (decay^[N] p.life))).map
        ((stepParticle w.innerWidth w.innerHeight)^[N + 1]) ∧
    (∀ (W H : Num) (n : Nat) (p : Particle),
      ((stepParticle W H)^[n] p).life = decay^[n] p.life ∧
      ((stepParticle W H)^[n] p).element = p.element) ∧
    (∀ (l : Num) (n : Nat), l.IsDouble →
      Num.lt (decay^[n] l) (decay^[n + 1] l) = false ∧ (decay^[n + 1] l).IsDouble) ∧
    (HandlesOk w → HandlesOk (update^[N] w) ∧
      ∀ q ∈ (update^[N + 1] w).particles, ∃ e,
        (update^[N] w).dom[q.element]? = some e ∧
        (update^[N + 1] w).dom[q.element]? =
          some { e with transform := some (q.x, q.y), opacity := q.life }) := by
  refine ⟨iterate_update_particles w N, ?_, ?_, ?_⟩
  · intro W H n p
    exact ⟨iterate_stepParticle_life W H n p, iterate_stepParticle_element W H n p⟩
  · intro l n hl
    rw [Function.iterate_succ_apply']
    exact decay_not_gt _ (iterate_decay_isDouble l hl n)
  · intro hok
    have hN : HandlesOk (update^[N] w) := by
      clear * - hok
      induction N with
      | zero => exact hok
      | succ N ih =>
        rw [Function.iterate_succ_apply']
        exact handlesOk_update _ ih
    refine ⟨hN, ?_⟩
    intro q hq
    rw [Function.iterate_succ_apply'] at hq ⊢
    exact update_restyles _ hN q hq

/-- Witness for C2 (amended): the one-particle engine `shortWorld` has well-formed handles,
and the life `0.008` is a binary64 value. -/
theorem life_after_updates_witness :
    HandlesOk shortWorld ∧ (Num.lit 0.008).IsDouble ∧
      Num.lt (decay^[0] (Num.lit 0.008)) (decay^[0 + 1] (Num.lit 0.008)) = false ∧
      HandlesOk (update^[0] shortWorld) :=
  have hok : HandlesOk shortWorld :=
    handlesOk_createParticle _ _ _ _ _ (handlesOk_init _ _)
  have hd : (Num.lit 0.008).IsDouble := ofRat_isDouble _
  ⟨hok, hd, ((life_after_updates shortWorld 0).2.2.1 (Num.lit 0.008) 0 hd).1,
    ((life_after_updates shortWorld 0).2.2.2 hok).1⟩

/-- C3 as stated fails: for `x = 2.401`, `vx = -2.45` one `update()` leaves `x = -2^-51`,
which is neither the real number `x + 0.98 * vx` nor that sum with `0.98` read as the
binary64 constant. -/
theorem exact_position_counterexample :
    roundingParticle ∈ roundingWorld.particles ∧
      Num.lt (Num.fin 0) roundingParticle.life = true ∧
      (update roundingWorld).particles.map Particle.x = [Num.fin (-(1 / 2251799813685248))] ∧
      roundingParticle.x.toRat + 0.98 * roundingParticle.vx.toRat ≠ -(1 / 2251799813685248) ∧
      roundingParticle.x.toRat + (Num.lit 0.98).toRat * roundingParticle.vx.toRat
        ≠ -(1 / 2251799813685248) := by
  refine ⟨by simp [roundingWorld], ?_, ?_, ?_, ?_⟩
  · norm_num [roundingParticle]
  · norm_num [update_particles, roundingWorld, roundingParticle, stepParticle]
  · norm_num [roundingParticle]
  · norm_num [roundingParticle]

/-- C3 (amended): a live particle with life greater than zero stays in the collection over
one `update()` and is advanced in binary64 arithmetic, every operation rounded, in the order
of the source: `vx1 = vx * 0.98`, `vy1 = vy * 0.98 + gravity`, `x' = x + vx1`,
`y' = y + vy1`, `life' = life - 0.008`; the new velocity component is `vx1` (`vy1`)
multiplied by `-0.8` exactly when the computed new coordinate is below `0` or above the
viewport extent, and `vx1` (`vy1`) otherwise; the position is not clamped, the result
depends on the particle and the viewport only, and size, color, gravity, maxLife and the
element are unchanged. The scenario
`create(100, 100, {vx: 0, vy: 0, size: 3, color: '#fff', life: 1, gravity: 0.1})` then one
`update()` gives position `(100, 100.1)` and life `0.992`, the particle still live. -/
theorem update_advances_live_particle :
    (∀ (w : World) (p : Particle), p ∈ w.particles → Num.lt (Num.fin 0) p.life = true →
      stepParticle w.innerWidth w.innerHeight p ∈ (update w).particles ∧
      (stepParticle w.innerWidth w.innerHeight p).x = Num.add p.x (Num.mul p.vx (Num.lit 0.98)) ∧
      (stepParticle w.innerWidth w.innerHeight p).y =
        Num.add p.y (Num.add (Num.mul p.vy (Num.lit 0.98)) p.gravity) ∧
      (stepParticle w.innerWidth w.innerHeight p).life = Num.sub p.life (Num.lit 0.008) ∧
      (stepParticle w.innerWidth w.innerHeight p).vx =
        (if (Num.lt (stepParticle w.innerWidth w.innerHeight p).x (Num.fin 0) ||
              Num.lt w.innerWidth (stepParticle w.innerWidth w.innerHeight p).x) = true
          then Num.mul (Num.mul p.vx (Num.lit 0.98)) (Num.neg (Num.lit 0.8))
          else Num.mul p.vx (Num.lit 0.98)) ∧
      (stepParticle w.innerWidth w.innerHeight p).vy =
        (if (Num.lt (stepParticle w.innerWidth w.innerHeight p).y (Num.fin 0) ||
              Num.lt w.innerHeight (stepParticle w.innerWidth w.innerHeight p).y) = true
          then Num.mul (Num.add (Num.mul p.vy (Num.lit 0.98)) p.gravity) (Num.neg (Num.lit 0.8))
          else Num.add (Num.mul p.vy (Num.lit 0.98)) p.gravity) ∧
      (stepParticle w.innerWidth w.innerHeight p).size = p.size ∧
      (stepParticle w.innerWidth w.innerHeight p).color = p.color ∧
      (stepParticle w.innerWidth w.innerHeight p).gravity = p.gravity ∧
      (stepParticle w.innerWidth w.innerHeight p).maxLife = p.maxLife ∧
      (stepParticle w.innerWidth w.innerHeight p).element = p.element) ∧
    (∀ w : World, (update w).particles =
      (w.particles.filter (fun p => Num.lt (Num.fin 0) p.life)).map
        (stepParticle w.innerWidth w.innerHeight)) ∧
    (∀ (W H : Num) (r : Draws),
      (update (createParticle (init W H) (some (Num.lit 100)) (some (Num.lit 100))
          scenarioOptions r).2).particles.map
        (fun q => (q.x, q.y, q.life, q.element))
          = [(Num.lit 100, Num.lit 100.1, Num.lit 0.992, 0)]) := by
  refine ⟨?_, update_particles, ?_⟩
  · intro w p hp hl
    exact ⟨mem_update_of_live w p hp hl, rfl, rfl, rfl, rfl, rfl, rfl, rfl, rfl, rfl, rfl⟩
  · intro W H r
    norm_num [update_particles, createParticle_particles, createParticle_fst, init,
      scenarioOptions, stepParticle, numOr, definedOr, strOr]

/-- Witness for C3 (amended): the spec's scenario particle in a 1920 x 1080 viewport. -/
theorem update_advances_live_particle_witness :
    (createParticle (init (Num.lit 1920) (Num.lit 1080)) (some (Num.lit 100))
        (some (Num.lit 100)) scenarioOptions halfDraws).1 ∈ scenarioWorld.particles ∧
      Num.lt (Num.fin 0)
        (createParticle (init (Num.lit 1920) (Num.lit 1080)) (some (Num.lit 100))
          (some (Num.lit 100)) scenarioOptions halfDraws).1.life = true ∧
      stepParticle scenarioWorld.innerWidth scenarioWorld.innerHeight
          (createParticle (init (Num.lit 1920) (Num.lit 1080)) (some (Num.lit 100))
            (some (Num.lit 100)) scenarioOptions halfDraws).1 ∈
        (update scenarioWorld).particles :=
  have hp : (createParticle (init (Num.lit 1920) (Num.lit 1080)) (some (Num.lit 100))
      (some (Num.lit 100)) scenarioOptions halfDraws).1 ∈ scenarioWorld.particles := by
    simp [scenarioWorld, createParticle_particles, init]
  have hl : Num.lt (Num.fin 0)
      (createParticle (init (Num.lit 1920) (Num.lit 1080)) (some (Num.lit 100))
        (some (Num.lit 100)) scenarioOptions halfDraws).1.life = true := by
    norm_num [createParticle_fst, scenarioOptions, numOr]
  ⟨hp, hl, (update_advances_live_particle.1 _ _ hp hl).1⟩

/-- C4 as stated fails: for `x = 11 > 10 = innerWidth` and `vx = 1` one `update()` leaves
`vx = -0.784`, whose magnitude `0.784` is not `0.8 * vx`, neither in binary64 arithmetic nor
over the reals. -/
theorem reflect_magnitude_counterexample :
    edgeParticle ∈ edgeWorld.particles ∧ Num.lt (Num.fin 0) edgeParticle.life = true ∧
      Num.lt edgeWorld.innerWidth edgeParticle.x = true ∧
      Num.lt (Num.fin 0) edgeParticle.vx = true ∧
      (update edgeWorld).particles.map Particle.vx = [Num.neg (Num.lit 0.784)] ∧
      Num.lit 0.784 ≠ Num.mul (Num.lit 0.8) edgeParticle.vx ∧
      (Num.lit 0.784).toRat ≠ 0.8 * edgeParticle.vx.toRat := by
  refine ⟨by simp [edgeWorld], ?_, ?_, ?_, ?_, ?_, ?_⟩
  · norm_num [edgeParticle]
  · norm_num [edgeParticle, edgeWorld]
  · norm_num [edgeParticle]
  · norm_num [update_particles, edgeWorld, edgeParticle, stepParticle]
  · norm_num [edgeParticle]
  · norm_num [edgeParticle]

/-- C4 (amended): for a live particle with `life > 0`, `x > innerWidth` and `vx > 0` (`x`
and `vx` binary64 values), one `update()` keeps the particle and yields a `vx` that is
below zero and whose magnitude is exactly `(vx * 0.98) * 0.8`, the damped velocity times
`0.8` with both products rounded to binary64. -/
theorem reflect_right_edge (w : World) (p : Particle) (hp : p ∈ w.particles)
    (hl : Num.lt (Num.fin 0) p.life = true) (hx : Num.lt w.innerWidth p.x = true)
    (hv : Num.lt (Num.fin 0) p.vx = true) (hxd : p.x.IsDouble) (hvd : p.vx.IsDouble) :
    stepParticle w.innerWidth w.innerHeight p ∈ (update w).particles ∧
      Num.lt (stepParticle w.innerWidth w.innerHeight p).vx (Num.fin 0) = true ∧
      Num.neg (stepParticle w.innerWidth w.innerHeight p).vx =
        Num.mul (Num.mul p.vx (Num.lit 0.98)) (Num.lit 0.8) := by
  have hc98 : Num.lit 0.98 = Num.fin (2206763817411543 / 2251799813685248) := by norm_num
  have hc08 : Num.lit 0.8 = Num.fin (3602879701896397 / 4503599627370496) := by norm_num
  -- the damped velocity is positive, and the new `x` is still right of the viewport
  have hkey : Num.lt w.innerWidth (Num.add p.x (Num.mul p.vx (Num.lit 0.98))) = true ∧
      Num.lt (Num.neg (Num.mul (Num.mul p.vx (Num.lit 0.98)) (Num.lit 0.8))) (Num.fin 0)
        = true := by
    rw [hc98, hc08]
    cases hvx : p.vx with
    | fin v =>
      rw [hvx] at hv hvd
      have hv0 : 0 < v := by simpa [Num.lt] using hv
      obtain ⟨v1, h1, h1pos, -, h1d⟩ :=
        ofRat_mul_shrink (c := 2206763817411543 / 2251799813685248) hvd hv0 (by norm_num)
          (by norm_num)
      obtain ⟨v2, h2, h2pos, -, -⟩ :=
        ofRat_mul_shrink (c := 3602879701896397 / 4503599627370496) h1d h1pos (by norm_num)
          (by norm_num)
      rw [Num.mul_fin, h1, Num.mul_fin, h2]
      constructor
      · cases hpx : p.x with
        | fin a =>
          rw [hpx] at hx hxd
          rw [Num.add_fin]
          rcases ofRat_add_nonneg (a := a) (v := v1) hxd h1pos.le with h | ⟨b, h, hb⟩
          · rw [h]
            cases hW : w.innerWidth <;> rw [hW] at hx <;> first | rfl | exact absurd hx (by simp [Num.lt])
          · rw [h]
            cases hW : w.innerWidth with
            | fin c =>
              rw [hW] at hx
              have hc : c < a := by simpa [Num.lt] using hx
              simpa [Num.lt] using lt_of_lt_of_le hc hb
            | posInf => rw [hW] at hx; exact absurd hx (by simp [Num.lt])
            | negInf => rfl
            | nan => rw [hW] at hx; exact absurd hx (by simp [Num.lt])
        | posInf =>
          rw [hpx] at hx
          exact hx
        | negInf =>
          rw [hpx] at hx
          cases hW : w.innerWidth <;> rw [hW] at hx <;> exact absurd hx (by simp [Num.lt])
        | nan =>
          rw [hpx] at hx
          cases hW : w.innerWidth <;> rw [hW] at hx <;> exact absurd hx (by simp [Num.lt])
      · simpa [Num.neg, Num.lt] using h2pos
    | posInf =>
      have hm1 : Num.mul Num.posInf (Num.fin (2206763817411543 / 2251799813685248))
          = Num.posInf := by
        norm_num [Num.mul, Num.mulInf]
      rw [hm1]
      constructor
      · have hadd : Num.add p.x Num.posInf = Num.posInf ∨ Num.lt w.innerWidth p.x = false := by
          cases p.x <;> cases w.innerWidth <;> simp [Num.add, Num.lt]
        rcases hadd with h | h
        · rw [h]
          cases hW : w.innerWidth <;> rw [hW] at hx <;>
            first | rfl | (cases hpx : p.x <;> rw [hpx] at hx <;> exact absurd hx (by simp [Num.lt]))
        · rw [h] at hx
          exact absurd hx (by simp)
      · norm_num [Num.mul, Num.mulInf, Num.neg, Num.lt]
    | negInf =>
      rw [hvx] at hv
      exact absurd hv (by simp [Num.lt])
    | nan =>
      rw [hvx] at hv
      exact absurd hv (by simp [Num.lt])
  have hbranch : (Num.lt (Num.add p.x (Num.mul p.vx (Num.lit 0.98))) (Num.fin 0) ||
      Num.lt w.innerWidth (Num.add p.x (Num.mul p.vx (Num.lit 0.98)))) = true := by
    rw [hkey.1, Bool.or_true]
  have hvx : (stepParticle w.innerWidth w.innerHeight p).vx =
      Num.neg (Num.mul (Num.mul p.vx (Num.lit 0.98)) (Num.lit 0.8)) := by
    show (if (Num.lt (Num.add p.x (Num.mul p.vx (Num.lit 0.98))) (Num.fin 0) ||
        Num.lt w.innerWidth (Num.add p.x (Num.mul p.vx (Num.lit 0.98)))) = true
      then Num.mul (Num.mul p.vx (Num.lit 0.98)) (Num.neg (Num.lit 0.8))
      else Num.mul p.vx (Num.lit 0.98)) = _
    rw [if_pos hbranch, hc08, Num.neg_fin, Num.mul_neg_fin]
  refine ⟨mem_update_of_live w p hp hl, ?_, ?_⟩
  · rw [hvx]
    exact hkey.2
  · rw [hvx, Num.neg_neg]

/-- Witness for C4 (amended): the particle of `edgeWorld`. -/
theorem reflect_right_edge_witness :
    stepParticle edgeWorld.innerWidth edgeWorld.innerHeight edgeParticle ∈
        (update edgeWorld).particles ∧
      Num.lt (stepParticle edgeWorld.innerWidth edgeWorld.innerHeight edgeParticle).vx
        (Num.fin 0) = true ∧
      Num.neg (stepParticle edgeWorld.innerWidth edgeWorld.innerHeight edgeParticle).vx =
        Num.mul (Num.mul edgeParticle.vx (Num.lit 0.98)) (Num.lit 0.8) :=
  reflect_right_edge edgeWorld edgeParticle (by simp [edgeWorld]) (by norm_num [edgeParticle])
    (by norm_num [edgeParticle, edgeWorld]) (by norm_num [edgeParticle])
    (ofRat_isDouble _) (ofRat_isDouble _)

/-- C5: when every live particle has `life > 0` and the particles being created get a
positive life, `emit(x, y, count, options)` makes the live collection exactly `count`
longer, and exactly 5 longer when `count` is omitted. The scenario `emit(50, 50, 3)` on a
fresh engine gives 3 live particles and one scheduled frame callback, where none was
scheduled before. -/
theorem emit_adds_count :
    (∀ (w : World) (x y : Option Num) (count : Nat) (options : Option Options)
        (rs : Nat → Draws),
      (∀ p ∈ w.particles, Num.lt (Num.fin 0) p.life = true) →
      Num.lt (Num.fin 0) (numOr (options.getD Options.empty).life (Num.lit 1)) = true →
      (emit w x y (some count) options rs).particles.length = w.particles.length + count ∧
      (emit w x y none options rs).particles.length = w.particles.length + 5) ∧
    (∀ (W H : Num) (rs : Nat → Draws),
      (init W H).particles = [] ∧ (init W H).rafQueue = [] ∧
      (emit (init W H) (some (Num.lit 50)) (some (Num.lit 50)) (some 3) none rs).particles.length
        = 3 ∧
      (emit (init W H) (some (Num.lit 50)) (some (Num.lit 50)) (some 3) none rs).rafQueue
        = [1] ∧
      (emit (init W H) (some (Num.lit 50)) (some (Num.lit 50)) (some 3) none rs).animationId
        = some 1) := by
  refine ⟨?_, ?_⟩
  · intro w x y count options rs hw ho
    exact ⟨emit_particles_length w x y (some count) options rs hw ho,
      emit_particles_length w x y none options rs hw ho⟩
  · intro W H rs
    have hlen := emit_particles_length (init W H) (some (Num.lit 50)) (some (Num.lit 50))
      (some 3) none rs (by simp [init]) (by norm_num [Options.empty, numOr])
    have hlen3 : (emit (init W H) (some (Num.lit 50)) (some (Num.lit 50)) (some 3) none
        rs).particles.length = 3 := by
      simpa [init] using hlen
    have hne : (emit (init W H) (some (Num.lit 50)) (some (Num.lit 50)) (some 3) none
        rs).particles ≠ [] := by
      intro h
      rw [h] at hlen3
      exact absurd hlen3 (by simp)
    obtain ⟨hq, hid, -⟩ := update_rafQueue_of_ne_nil _ hne
    obtain ⟨eq1, eq2, -⟩ :=
      emitLoop_rafQueue (some (Num.lit 50)) (some (Num.lit 50)) Options.empty rs 3 (init W H)
    refine ⟨rfl, rfl, hlen3, ?_, ?_⟩
    · show (update _).rafQueue = _
      rw [hq]
      simp only [Option.getD_none, Option.getD_some]
      rw [eq1, eq2]
      rfl
    · show (update _).animationId = _
      rw [hid]
      simp only [Option.getD_none, Option.getD_some]
      rw [eq2]
      rfl

/-- Witness for C5: two particles emitted into the one-particle engine `edgeWorld`. -/
theorem emit_adds_count_witness :
    (emit edgeWorld (some (Num.lit 50)) (some (Num.lit 50)) (some 2) none
        (fun _ => halfDraws)).particles.length = edgeWorld.particles.length + 2 :=
  (emit_adds_count.1 edgeWorld (some (Num.lit 50)) (some (Num.lit 50)) 2 none
    (fun _ => halfDraws) (by norm_num [edgeWorld, edgeParticle])
    (by norm_num [Options.empty, numOr])).1

/-- C6 as stated fails: `createParticle` on a fresh (idle) engine schedules no frame
callback, and `emit(50, 50, 1, {life: -1})` on a fresh engine ends with an empty collection
and no frame callback. -/
theorem spawn_leaves_idle_counterexample :
    (init (Num.lit 1920) (Num.lit 1080)).particles = [] ∧
      (init (Num.lit 1920) (Num.lit 1080)).rafQueue = [] ∧
      (createParticle (init (Num.lit 1920) (Num.lit 1080)) (some (Num.lit 50))
        (some (Num.lit 50)) Options.empty halfDraws).2.rafQueue = [] ∧
      (createParticle (init (Num.lit 1920) (Num.lit 1080)) (some (Num.lit 50))
        (some (Num.lit 50)) Options.empty halfDraws).2.animationId = none ∧
      (emit (init (Num.lit 1920) (Num.lit 1080)) (some (Num.lit 50)) (some (Num.lit 50))
        (some 1) (some negativeLifeOptions) (fun _ => halfDraws)).rafQueue = [] ∧
      (emit (init (Num.lit 1920) (Num.lit 1080)) (some (Num.lit 50)) (some (Num.lit 50))
        (some 1) (some negativeLifeOptions) (fun _ => halfDraws)).particles = [] := by
  refine ⟨rfl, rfl, rfl, rfl, ?_, ?_⟩ <;>
    norm_num [emit_eq, emitLoop_succ, emitLoop_zero, update_particles, update_rafQueue,
      createParticle_particles, createParticle_fst, createParticle_rafQueue, init,
      negativeLifeOptions, numOr]

/-- C6 (amended): on an idle engine (empty collection, no frame callback scheduled)
`emit(x, y, count, options)` with `count >= 1` and a positive resolved life runs `update()`
on the state left by its `count` creations and returns with a non-empty collection and
exactly one scheduled frame callback, whose handle is in `animationId`. A `createParticle`
call by itself only appends the particle: no frame callback is scheduled and `animationId`
is untouched; when the new particle has positive life, the `update()` call that the caller
makes next schedules the frame callback. -/
theorem spawn_into_idle (w : World) (hp : w.particles = []) (hq : w.rafQueue = []) :
    (∀ (x y : Option Num) (count : Nat) (options : Option Options) (rs : Nat → Draws),
      1 ≤ count →
      Num.lt (Num.fin 0) (numOr (options.getD Options.empty).life (Num.lit 1)) = true →
      emit w x y (some count) options rs =
        update (emitLoop x y (options.getD Options.empty) rs count w) ∧
      (emit w x y (some count) options rs).particles ≠ [] ∧
      (emit w x y (some count) options rs).rafQueue = [w.rafNext] ∧
      (emit w x y (some count) options rs).animationId = some w.rafNext) ∧
    (∀ (x y : Option Num) (o : Options) (r : Draws),
      (createParticle w x y o r).2.particles = [(createParticle w x y o r).1] ∧
      (createParticle w x y o r).2.rafQueue = [] ∧
      (createParticle w x y o r).2.animationId = w.animationId ∧
      (Num.lt (Num.fin 0) (numOr o.life (Num.lit 1)) = true →
        (update (createParticle w x y o r).2).rafQueue = [w.rafNext] ∧
        (update (createParticle w x y o r).2).animationId = some w.rafNext ∧
        (update (createParticle w x y o r).2).particles ≠ [])) := by
  constructor
  · intro x y count options rs hc ho
    have hlen := emit_particles_length w x y (some count) options rs (by simp [hp]) ho
    have hne : (emit w x y (some count) options rs).particles ≠ [] := by
      intro h
      rw [h, hp] at hlen
      simp at hlen
      omega
    obtain ⟨h1, h2, -⟩ := update_rafQueue_of_ne_nil _ hne
    obtain ⟨e1, e2, -⟩ := emitLoop_rafQueue x y (options.getD Options.empty) rs count w
    refine ⟨rfl, hne, ?_, ?_⟩
    · show (update _).rafQueue = _
      rw [h1]
      simp only [Option.getD_some]
      rw [e1, e2, hq]
      rfl
    · show (update _).animationId = _
      rw [h2]
      simp only [Option.getD_some]
      rw [e2]
  · intro x y o r
    refine ⟨by rw [createParticle_particles, hp]; rfl, hq, rfl, ?_⟩
    intro hl
    have hmem := mem_update_of_live (createParticle w x y o r).2 (createParticle w x y o r).1
      (by rw [createParticle_particles]; simp) hl
    have hne : (update (createParticle w x y o r).2).particles ≠ [] :=
      List.ne_nil_of_mem hmem
    obtain ⟨h1, h2, -⟩ := update_rafQueue_of_ne_nil _ hne
    refine ⟨?_, ?_, hne⟩
    · rw [h1]
      show w.rafQueue ++ [w.rafNext] = _
      rw [hq]
      rfl
    · rw [h2]
      rfl

/-- Witness for C6 (amended): the fresh engine in a 1920 x 1080 viewport. -/
theorem spawn_into_idle_witness :
    (emit (init (Num.lit 1920) (Num.lit 1080)) (some (Num.lit 50)) (some (Num.lit 50)) (some 3)
        none (fun _ => halfDraws)).rafQueue = [1] ∧
      (createParticle (init (Num.lit 1920) (Num.lit 1080)) (some (Num.lit 50))
        (some (Num.lit 50)) Options.empty halfDraws).2.rafQueue = [] :=
  ⟨((spawn_into_idle (init (Num.lit 1920) (Num.lit 1080)) rfl rfl).1 (some (Num.lit 50))
      (some (Num.lit 50)) 3 none (fun _ => halfDraws) (by decide)
      (by norm_num [Options.empty, numOr])).2.2.1,
   ((spawn_into_idle (init (Num.lit 1920) (Num.lit 1080)) rfl rfl).2 (some (Num.lit 50))
      (some (Num.lit 50)) Options.empty halfDraws).2.1⟩

/-- C7 (code evaluated at the failing input): two `emit(50, 50, 1, ...)` calls in a row leave
two `update()` callbacks queued for the next display frame; that frame runs both, so each
particle's life drops by `0.016`, and two callbacks are queued again. -/
theorem two_callbacks_per_frame :
    twiceEmitted.rafQueue = [1, 2] ∧
      twiceEmitted.particles.map Particle.life = [Num.lit 0.984, Num.lit 0.992] ∧
      (frame twiceEmitted).particles.map Particle.life = [Num.lit 0.968, Num.lit 0.976] ∧
      (frame twiceEmitted).rafQueue = [3, 4] := by
  refine ⟨?_, ?_, ?_, ?_⟩ <;>
    norm_num [frame, twiceEmitted, emit_eq, emitLoop_succ, emitLoop_zero, update_particles,
      update_rafQueue, update_rafNext, update_innerWidth, update_innerHeight,
      createParticle_particles, createParticle_fst, createParticle_rafQueue,
      createParticle_rafNext, createParticle_innerWidth, createParticle_innerHeight,
      init, scenarioOptions, numOr, definedOr, strOr, stepParticle, halfDraws]

/-- C8 (code evaluated at the failing inputs): `clear()` cancels only the callback whose
handle is in `animationId`. After two `emit` calls in a row it leaves callback `1` queued;
and on an engine whose collection three `update()` calls have already emptied, with
callbacks `1` and `2` queued, it leaves callback `1` queued as well. -/
theorem clear_leaves_callback :
    twiceEmitted.rafQueue = [1, 2] ∧ (clear twiceEmitted).particles = [] ∧
      (clear twiceEmitted).container = [] ∧ (clear twiceEmitted).rafQueue = [1] ∧
      (update (update (update twoStepWorld))).particles = [] ∧
      (update (update (update twoStepWorld))).rafQueue = [1, 2] ∧
      (clear (update (update (update twoStepWorld)))).rafQueue = [1] := by
  refine ⟨?_, ?_, ?_, ?_, ?_, ?_, ?_⟩ <;>
    norm_num [clear_particles, clear_container, clear_rafQueue, twiceEmitted, twoStepWorld,
      twoStepOptions, emit_eq, emitLoop_succ, emitLoop_zero, update_particles, update_rafQueue,
      update_rafNext, update_animationId, update_container, update_innerWidth,
      update_innerHeight, createParticle_particles, createParticle_fst,
      createParticle_rafQueue, createParticle_rafNext, createParticle_animationId,
      createParticle_container, createParticle_dom, createParticle_innerWidth,
      createParticle_innerHeight, init, scenarioOptions, numOr, definedOr, strOr,
      stepParticle, halfDraws]

/-- C9 (code evaluated at the failing inputs): in a 1920 x 1080 viewport with every random
draw `0.5`, `createParticle(0, 300, {vx: 0, vy: 0, size: 3, color: '#fff', life: 1,
gravity: 0.1})` returns a particle at `x = 960`, not at the supplied `x = 0`; and
`createParticle(0, 0, {size: 0, color: '', life: 0})` returns a particle at `(960, 540)`
with size `4`, color `'#06b6d4'` and life `1`. -/
theorem supplied_zero_replaced :
    (createParticle (init (Num.lit 1920) (Num.lit 1080)) (some (Num.lit 0)) (some (Num.lit 300))
        scenarioOptions halfDraws).1 =
      { x := Num.lit 960, y := Num.lit 300, vx := Num.lit 0, vy := Num.lit 0,
        size := Num.lit 3, color := "#fff", life := Num.lit 1, maxLife := Num.lit 1,
        gravity := Num.lit 0.1, element := 0 } ∧
    Num.lit 960 ≠ Num.lit 0 ∧
    (createParticle (init (Num.lit 1920) (Num.lit 1080)) (some (Num.lit 0)) (some (Num.lit 0))
        falsyOptions halfDraws).1 =
      { x := Num.lit 960, y := Num.lit 540, vx := Num.lit 0, vy := Num.lit 0,
        size := Num.lit 4, color := "#06b6d4", life := Num.lit 1, maxLife := Num.lit 1,
        gravity := Num.lit 0.05, element := 0 } := by
  have hfloor : Int.floor (2 : ℚ) = 2 := by norm_num
  have hcolor : ¬ ("#fff" : String) = "" := by decide
  refine ⟨?_, ?_, ?_⟩
  · norm_num [createParticle_fst, init, scenarioOptions, halfDraws, numOr, strOr, definedOr,
      hcolor]
  · norm_num
  · norm_num [createParticle_fst, init, falsyOptions, halfDraws, numOr, strOr, definedOr,
      pickColor, hfloor, palette]
    rfl

/-- C10 (code evaluated at the failing input): right after
`createParticle(100, 100, {vx: 0, vy: 0, size: 3, color: '#fff', life: 1, gravity: 0.1})` the
element is displayed at `(100, 100)` with opacity `1`; after one `update()` the particle is at
`(100, 100.1)` with life `0.992` and the opacity is `0.992`, but the element keeps
`left = top = 100` and gets `translate(100px, 100.1px)`, so it is displayed at
`(200, 200.1)`. -/
theorem handle_displayed_off_position :
    scenarioWorld.particles.map (fun q => (q.x, q.y, q.life, q.element))
        = [(Num.lit 100, Num.lit 100, Num.lit 1, 0)] ∧
      scenarioWorld.dom.map displayed = [(Num.lit 100, Num.lit 100)] ∧
      scenarioWorld.dom.map Element.opacity = [Num.lit 1] ∧
      (update scenarioWorld).particles.map (fun q => (q.x, q.y, q.life, q.element))
        = [(Num.lit 100, Num.lit 100.1, Num.lit 0.992, 0)] ∧
      (update scenarioWorld).dom.map (fun e => (e.left, e.top, e.transform))
        = [(Num.lit 100, Num.lit 100, some (Num.lit 100, Num.lit 100.1))] ∧
      (update scenarioWorld).dom.map displayed = [(Num.lit 200, Num.lit 200.1)] ∧
      (update scenarioWorld).dom.map Element.opacity = [Num.lit 0.992] := by
  refine ⟨?_, ?_, ?_, ?_, ?_, ?_, ?_⟩ <;>
    norm_num [scenarioWorld, update_particles, update_dom, createParticle_particles,
      createParticle_dom, createParticle_fst, createParticle_innerWidth,
      createParticle_innerHeight, init, scenarioOptions, numOr, definedOr,
      strOr, stepParticle, writeStyle, restyle, modifyAt, displayed, halfDraws]

end ParticleSystem
